import Mathlib

/-! Janus virtual-host router (`pkg/router/chi.go`).

A shallow embedding of the `ChiRouter` adapter: host resolution
(`requestHost`, `parseForwarded`), the host table (`selectRouter`,
`newHostRouter`), the registration operations and the route counter.

Go strings are modelled as lists of Unicode code points (`List Char`), i.e.
as valid UTF-8 text; the separators used by the source (`;`, `=`, `"`) are
single ASCII characters, so they are passed as a `Char`.
-/

namespace Janus

/-- A Go `string`, as the sequence of its code points. -/
abbrev GoString := List Char

/-! ## The parts of the Go standard library used by `chi.go` -/

/-- Go `unicode.IsSpace`: the Unicode White_Space property. -/
def isSpace (c : Char) : Bool :=
  c = '\t' || c = '\n' || c.toNat = 0x0B || c.toNat = 0x0C || c = '\r' || c = ' ' ||
  c.toNat = 0x85 || c.toNat = 0xA0 || c.toNat = 0x1680 ||
  (0x2000 ≤ c.toNat && c.toNat ≤ 0x200A) ||
  c.toNat = 0x2028 || c.toNat = 0x2029 || c.toNat = 0x202F || c.toNat = 0x205F ||
  c.toNat = 0x3000

/-- Go `strings.TrimFunc`: drops the leading and the trailing characters that satisfy `f`. -/
def TrimFunc (s : GoString) (f : Char → Bool) : GoString :=
  ((s.dropWhile f).reverse.dropWhile f).reverse

/-- Go `strings.TrimSpace`. -/
def TrimSpace (s : GoString) : GoString := TrimFunc s isSpace

/-- Go `strings.Trim(s, cutset)` for a cutset of one character. -/
def Trim (s : GoString) (cut : Char) : GoString := TrimFunc s (fun c => c == cut)

/-- Go `unicode.ToLower` as far as a comparison with an ASCII word can tell: `A`..`Z` go to
`a`..`z`, and the only characters outside ASCII whose lower case is an ASCII letter are
U+0130 (to `i`) and U+212A (to `k`). Every other character outside ASCII has a lower case
outside ASCII; it is left as it is. -/
def toLowerRune (c : Char) : Char :=
  if 'A' ≤ c ∧ c ≤ 'Z' then Char.ofNat (c.toNat + 32)
  else if c.toNat = 0x130 then 'i'
  else if c.toNat = 0x212A then 'k'
  else c

/-- Go `strings.ToLower`. -/
def ToLower (s : GoString) : GoString := s.map toLowerRune

/-- Go `strings.Split(s, sep)` for a separator of one character: the pieces between the
occurrences of `sep`, always at least one piece. -/
def Split : GoString → Char → List GoString
  | [], _ => [[]]
  | c :: cs, sep =>
    if c = sep then [] :: Split cs sep
    else match Split cs sep with
      | [] => [[c]]
      | p :: ps => (c :: p) :: ps

/-- Go `strings.Cut(s, sep)` for a separator of one character: the text before and after the
first `sep`, when there is one. -/
def cutFirst : GoString → Char → Option (GoString × GoString)
  | [], _ => none
  | c :: cs, sep =>
    if c = sep then some ([], cs)
    else match cutFirst cs sep with
      | none => none
      | some (a, b) => some (c :: a, b)

/-- Go `strings.SplitN(s, sep, 2)` for a separator of one character: `[s]` when `sep` does
not occur, else the text before the first `sep` and everything after it. -/
def SplitN2 (s : GoString) (sep : Char) : List GoString :=
  match cutFirst s sep with
  | none => [s]
  | some (a, b) => [a, b]

/-! ## Go maps with string keys -/

/-- Go `v, ok := m[key]` on a map kept as a list of entries. -/
def mapGet {V : Type} : List (GoString × V) → GoString → Option V
  | [], _ => none
  | (k, v) :: m, key => if k = key then some v else mapGet m key

/-- Go `m[key] = v`: overwrites the entry of `key` when there is one, else adds an entry. -/
def mapSet {V : Type} : List (GoString × V) → GoString → V → List (GoString × V)
  | [], key, v => [(key, v)]
  | (k, w) :: m, key, v => if k = key then (k, v) :: m else (k, w) :: mapSet m key v

/-- The keys of a Go map. -/
def mapKeys {V : Type} (m : List (GoString × V)) : List GoString := m.map Prod.fst

/-! ## Requests -/

/-- Go `http.Header`: canonical header name to its list of values. -/
abbrev Header := List (GoString × List GoString)

/-- Go `Header.Get` for a key that is already canonical: the first value stored under
the key, `""` when there is none. -/
def Header.Get (h : Header) (key : GoString) : GoString :=
  match mapGet h key with
  | some (v :: _) => v
  | _ => []

/-- The fields of `http.Request` that routing reads. -/
structure Request where
  Method : GoString
  Path : GoString
  Header : Header
  Host : GoString

/-! ## Host resolution (`chi.go`, lines 182-225) -/

/-- One iteration of the loop of `parseForwarded` (lines 208-221). -/
def parseForwardedPair (acc : GoString × GoString × GoString) (forwardedPair : GoString) :
    GoString × GoString × GoString :=
  match SplitN2 forwardedPair '=' with
  | [token, value] =>
    let token := TrimSpace token
    let value := TrimSpace (Trim value '"')
    let lower := ToLower token
    if lower = "for".toList then (value, acc.2.1, acc.2.2)
    else if lower = "proto".toList then (acc.1, value, acc.2.2)
    else if lower = "host".toList then (acc.1, acc.2.1, value)
    else acc
  | _ => acc

/-- `parseForwarded` (lines 202-225): returns `(addr, proto, host)`. -/
def parseForwarded (forwarded : GoString) : GoString × GoString × GoString :=
  if forwarded = [] then ([], [], [])
  else (Split forwarded ';').foldl parseForwardedPair ([], [], [])

/-- `requestHost` (lines 182-200). -/
def requestHost (r : Request) : GoString :=
  let host := r.Header.Get "X-Forwarded-Host".toList
  if host ≠ [] then host
  else
    let host := r.Header.Get "Forwarded".toList
    let host := (parseForwarded host).2.2
    if host ≠ [] then host
    else r.Host

/-- Whether a `;`-separated piece of a Forwarded header is a `token=value` pair whose token,
trimmed and lower-cased, is `host`. -/
def isHostPair (p : GoString) : Bool :=
  match SplitN2 p '=' with
  | [token, _] => ToLower (TrimSpace token) = "host".toList
  | _ => false

/-! ## The go-chi routing tree

The adapter stores one `chi.Router` per host and only calls its interface. A tree is modelled
by what has been registered in it: its middleware stack, its not-found handler and its routes,
each route with the sub-router mounted under it, if any. Handlers (`http.HandlerFunc`) and
middleware (`Constructor`) are values of two arbitrary types `H` and `M`: the adapter passes
them on and never calls them. The run-time panics of go-chi itself (a pattern that does not
begin with `/`, `Use` after the first route, mounting twice under one pattern) are not
modelled: a call into go-chi is described by the tree it leaves when go-chi returns, and what
is stated below about a registration call is stated for a call that returns. -/

/-- What a tree holds for one method of one pattern: a handler of the caller behind the
middleware of the inline router it was registered through (`chi.Chain(mws...).Handler(h)`),
or the handler go-chi builds for a mounted sub-router. -/
inductive Endpoint (H M : Type) where
  | chain (middlewares : List M) (handler : H) : Endpoint H M
  | mount : Endpoint H M

mutual
/-- go-chi `Mux`: the middleware stack, the not-found handler (`nil` until set) and the
registered routes. -/
inductive Mux (H M : Type) where
  | mk (middlewares : List M) (notFoundHandler : Option H) (routes : List (Route H M)) : Mux H M
/-- go-chi `Route`: `Pattern`, `Handlers` by method name, `SubRoutes` (`nil` for a route that
is not a mount point). -/
inductive Route (H M : Type) where
  | mk (Pattern : GoString) (Handlers : List (GoString × Endpoint H M))
      (SubRoutes : Option (Mux H M)) : Route H M
end

section Chi
variable {H M : Type}

/-- The field `middlewares` of a `Mux`. -/
def Mux.middlewares : Mux H M → List M
  | .mk mws _ _ => mws

/-- The field `notFoundHandler` of a `Mux`. -/
def Mux.notFoundHandler : Mux H M → Option H
  | .mk _ nf _ => nf

/-- go-chi `Mux.Routes()`. -/
def Mux.Routes : Mux H M → List (Route H M)
  | .mk _ _ routes => routes

/-- The field `Pattern` of a `Route`. -/
def Route.Pattern : Route H M → GoString
  | .mk p _ _ => p

/-- The field `Handlers` of a `Route`. -/
def Route.Handlers : Route H M → List (GoString × Endpoint H M)
  | .mk _ hs _ => hs

/-- The field `SubRoutes` of a `Route`. -/
def Route.SubRoutes : Route H M → Option (Mux H M)
  | .mk _ _ sub => sub

/-- go-chi `NewRouter()`. -/
def Mux.NewRouter : Mux H M := .mk [] none []

/-- go-chi `Mux.NotFound(h)`. -/
def Mux.NotFound (mx : Mux H M) (h : H) : Mux H M :=
  .mk mx.middlewares (some h) mx.Routes

/-- go-chi `Mux.Use(mws...)`: appends to the middleware stack. This is the tree a call that
returns leaves; go-chi panics instead once the tree has a route. -/
def Mux.Use (mx : Mux H M) (mws : List M) : Mux H M :=
  .mk (mx.middlewares ++ mws) mx.notFoundHandler mx.Routes

/-- go-chi `tree.InsertRoute`: a pattern already present gets the handler for `method`
(replacing an earlier one), a new pattern gets a new route. Patterns are compared as text;
go-chi also takes two patterns that differ only in the name of a parameter for one. -/
def insertRoute : List (Route H M) → GoString → GoString → Endpoint H M → List (Route H M)
  | [], method, pattern, ep => [.mk pattern [(method, ep)] none]
  | rt :: rest, method, pattern, ep =>
    if rt.Pattern = pattern then .mk rt.Pattern (mapSet rt.Handlers method ep) rt.SubRoutes :: rest
    else rt :: insertRoute rest method pattern ep

/-- go-chi `Mux.handle(method, pattern, handler)`. This is the tree a call that returns
leaves; go-chi panics instead for a pattern that does not begin with `/`. -/
def Mux.handle (mx : Mux H M) (method pattern : GoString) (ep : Endpoint H M) : Mux H M :=
  .mk mx.middlewares mx.notFoundHandler (insertRoute mx.Routes method pattern ep)

/-- The inline router that go-chi `Mux.With(mws...)` returns: it shares the tree of its parent
and carries the middleware to put in front of each handler registered through it. -/
structure InlineMux (H M : Type) where
  parent : Mux H M
  middlewares : List M

/-- go-chi `Mux.With(mws...)`. -/
def Mux.With (mx : Mux H M) (mws : List M) : InlineMux H M := ⟨mx, mws⟩

/-- go-chi `Mux.Method(method, pattern, h)` on an inline router; the result is the shared
tree after the call. -/
def InlineMux.Method (im : InlineMux H M) (method pattern : GoString) (h : H) : Mux H M :=
  im.parent.handle method pattern (.chain im.middlewares h)

/-- go-chi `Mux.Handle(pattern, h)`: every method, listed under `*`. -/
def InlineMux.Handle (im : InlineMux H M) (pattern : GoString) (h : H) : Mux H M :=
  im.Method "*".toList pattern h

/-- go-chi `Mux.Get`. -/
def InlineMux.Get (im : InlineMux H M) (pattern : GoString) (h : H) : Mux H M :=
  im.Method "GET".toList pattern h

/-- go-chi `Mux.Post`. -/
def InlineMux.Post (im : InlineMux H M) (pattern : GoString) (h : H) : Mux H M :=
  im.Method "POST".toList pattern h

/-- go-chi `Mux.Put`. -/
def InlineMux.Put (im : InlineMux H M) (pattern : GoString) (h : H) : Mux H M :=
  im.Method "PUT".toList pattern h

/-- go-chi `Mux.Delete`. -/
def InlineMux.Delete (im : InlineMux H M) (pattern : GoString) (h : H) : Mux H M :=
  im.Method "DELETE".toList pattern h

/-- go-chi `Mux.Patch`. -/
def InlineMux.Patch (im : InlineMux H M) (pattern : GoString) (h : H) : Mux H M :=
  im.Method "PATCH".toList pattern h

/-- go-chi `Mux.Head`. -/
def InlineMux.Head (im : InlineMux H M) (pattern : GoString) (h : H) : Mux H M :=
  im.Method "HEAD".toList pattern h

/-- go-chi `Mux.Options`. -/
def InlineMux.Options (im : InlineMux H M) (pattern : GoString) (h : H) : Mux H M :=
  im.Method "OPTIONS".toList pattern h

/-- go-chi `Mux.Trace`. -/
def InlineMux.Trace (im : InlineMux H M) (pattern : GoString) (h : H) : Mux H M :=
  im.Method "TRACE".toList pattern h

/-- go-chi `Mux.Connect`. -/
def InlineMux.Connect (im : InlineMux H M) (pattern : GoString) (h : H) : Mux H M :=
  im.Method "CONNECT".toList pattern h

/-- The pattern go-chi `Mount` lists a sub-router under: `pattern/*`. -/
def mountPattern (pattern : GoString) : GoString :=
  if pattern.getLast? = some '/' then pattern ++ "*".toList else pattern ++ "/*".toList

/-- go-chi `Mux.Route(pattern, fn)`: builds a new sub-router with `fn` and mounts it under
`pattern`; it shows in `Routes()` as one route whose `SubRoutes` is the sub-router. This is
the tree a call that returns leaves; go-chi panics instead when something is already mounted
under `pattern`. -/
def Mux.Route (mx : Mux H M) (pattern : GoString) (fn : Mux H M → Mux H M) : Mux H M :=
  let subRouter := fn Mux.NewRouter
  .mk mx.middlewares mx.notFoundHandler
    (mx.Routes ++ [.mk (mountPattern pattern) [("*".toList, .mount)] (some subRouter)])

end Chi

/-! ## The adapter (`chi.go`, lines 13-180; `router.go`, lines 39-49) -/

/-- `Options` (`router.go`, lines 40-43). -/
structure Options (H : Type) where
  NotFoundHandler : H
  SafeAddRoutesWhileRunning : Bool

/-- `ChiRouter` (lines 13-16). A `chi.Router` stored in `hosts` is a reference to a tree that
nothing else holds, so the table is kept as host name to tree. -/
structure ChiRouter (H M : Type) where
  selectingHost : GoString
  hosts : List (GoString × Mux H M)

section Adapter
variable {H M R : Type}

/-- Go `http.MethodGet` and the other method names of `net/http`. -/
def MethodGet : GoString := "GET".toList
/-- Go `http.MethodPost`. -/
def MethodPost : GoString := "POST".toList
/-- Go `http.MethodPut`. -/
def MethodPut : GoString := "PUT".toList
/-- Go `http.MethodPatch`. -/
def MethodPatch : GoString := "PATCH".toList
/-- Go `http.MethodDelete`. -/
def MethodDelete : GoString := "DELETE".toList
/-- Go `http.MethodHead`. -/
def MethodHead : GoString := "HEAD".toList
/-- Go `http.MethodOptions`. -/
def MethodOptions : GoString := "OPTIONS".toList
/-- Go `http.MethodTrace`. -/
def MethodTrace : GoString := "TRACE".toList
/-- Go `http.MethodConnect`. -/
def MethodConnect : GoString := "CONNECT".toList

/-- `newHostRouter` (lines 167-172). `DefaultOptions` is the package variable of
`router.go`, read when the call is made. -/
def ChiRouter.newHostRouter (DefaultOptions : Options H) (r : ChiRouter H M)
    (hostName : GoString) : ChiRouter H M :=
  let hostRouter : Mux H M := Mux.NewRouter
  let hostRouter := hostRouter.NotFound DefaultOptions.NotFoundHandler
  { r with hosts := mapSet r.hosts hostName hostRouter }

/-- `NewChiRouterWithOptions` (lines 20-31). The router built from `options` in lines 21-22
is not stored anywhere. -/
def NewChiRouterWithOptions (DefaultOptions options : Options H) : ChiRouter H M :=
  let router : Mux H M := Mux.NewRouter
  let _router := router.NotFound options.NotFoundHandler
  let crouter : ChiRouter H M := { selectingHost := [], hosts := [] }
  crouter.newHostRouter DefaultOptions "*".toList

/-- `NewChiRouter` (lines 34-36). -/
def NewChiRouter (DefaultOptions : Options H) : ChiRouter H M :=
  NewChiRouterWithOptions DefaultOptions DefaultOptions

/-- `selectRouter` (lines 154-161): the router after the call and the returned `chi.Router`,
which is `nil` (`none`) when the table has no entry for `hostName` at line 160. -/
def ChiRouter.selectRouter (DefaultOptions : Options H) (r : ChiRouter H M)
    (hostName : GoString) : ChiRouter H M × Option (Mux H M) :=
  let r := if (mapGet r.hosts hostName).isNone then r.newHostRouter DefaultOptions hostName else r
  (r, mapGet r.hosts hostName)

/-- `wrapConstructor` (lines 174-180). -/
def wrapConstructor (handlers : List M) : List M :=
  handlers.foldl (fun cons m => cons ++ [m]) []

/-- The table after a call that changed, in place, the tree `selectRouter` returned for
`host`: the entry of `host` holds the tree as the call left it. -/
def ChiRouter.store (r : ChiRouter H M) (host : GoString) (mx : Mux H M) : ChiRouter H M :=
  { r with hosts := mapSet r.hosts host mx }

/-- `with` (lines 163-165): the router after the call and the inline router returned; a call
of `With` on a `nil` router panics (`none`). -/
def ChiRouter.with_ (DefaultOptions : Options H) (r : ChiRouter H M) (host : GoString)
    (handlers : List M) : Option (ChiRouter H M × InlineMux H M) :=
  match r.selectRouter DefaultOptions host with
  | (r, some mx) => some (r, mx.With (wrapConstructor handlers))
  | (_, none) => none

/-- `Any` (lines 52-54). -/
def ChiRouter.Any (DefaultOptions : Options H) (r : ChiRouter H M) (host path : GoString)
    (handler : H) (handlers : List M) : Option (ChiRouter H M) :=
  (r.with_ DefaultOptions host handlers).map fun p => p.1.store host (p.2.Handle path handler)

/-- `GET` (lines 77-79). -/
def ChiRouter.GET (DefaultOptions : Options H) (r : ChiRouter H M) (host path : GoString)
    (handler : H) (handlers : List M) : Option (ChiRouter H M) :=
  (r.with_ DefaultOptions host handlers).map fun p => p.1.store host (p.2.Get path handler)

/-- `POST` (lines 82-84). -/
def ChiRouter.POST (DefaultOptions : Options H) (r : ChiRouter H M) (host path : GoString)
    (handler : H) (handlers : List M) : Option (ChiRouter H M) :=
  (r.with_ DefaultOptions host handlers).map fun p => p.1.store host (p.2.Post path handler)

/-- `PUT` (lines 87-89). -/
def ChiRouter.PUT (DefaultOptions : Options H) (r : ChiRouter H M) (host path : GoString)
    (handler : H) (handlers : List M) : Option (ChiRouter H M) :=
  (r.with_ DefaultOptions host handlers).map fun p => p.1.store host (p.2.Put path handler)

/-- `DELETE` (lines 92-94). -/
def ChiRouter.DELETE (DefaultOptions : Options H) (r : ChiRouter H M) (host path : GoString)
    (handler : H) (handlers : List M) : Option (ChiRouter H M) :=
  (r.with_ DefaultOptions host handlers).map fun p => p.1.store host (p.2.Delete path handler)

/-- `PATCH` (lines 97-99). -/
def ChiRouter.PATCH (DefaultOptions : Options H) (r : ChiRouter H M) (host path : GoString)
    (handler : H) (handlers : List M) : Option (ChiRouter H M) :=
  (r.with_ DefaultOptions host handlers).map fun p => p.1.store host (p.2.Patch path handler)

/-- `HEAD` (lines 102-104). -/
def ChiRouter.HEAD (DefaultOptions : Options H) (r : ChiRouter H M) (host path : GoString)
    (handler : H) (handlers : List M) : Option (ChiRouter H M) :=
  (r.with_ DefaultOptions host handlers).map fun p => p.1.store host (p.2.Head path handler)

/-- `OPTIONS` (lines 107-109). -/
def ChiRouter.OPTIONS (DefaultOptions : Options H) (r : ChiRouter H M) (host path : GoString)
    (handler : H) (handlers : List M) : Option (ChiRouter H M) :=
  (r.with_ DefaultOptions host handlers).map fun p => p.1.store host (p.2.Options path handler)

/-- `TRACE` (lines 112-114). -/
def ChiRouter.TRACE (DefaultOptions : Options H) (r : ChiRouter H M) (host path : GoString)
    (handler : H) (handlers : List M) : Option (ChiRouter H M) :=
  (r.with_ DefaultOptions host handlers).map fun p => p.1.store host (p.2.Trace path handler)

/-- `CONNECT` (lines 117-119). -/
def ChiRouter.CONNECT (DefaultOptions : Options H) (r : ChiRouter H M) (host path : GoString)
    (handler : H) (handlers : List M) : Option (ChiRouter H M) :=
  (r.with_ DefaultOptions host handlers).map fun p => p.1.store host (p.2.Connect path handler)

/-- `Handle` (lines 57-74): the `switch` has seven cases and no `default`. -/
def ChiRouter.Handle (DefaultOptions : Options H) (r : ChiRouter H M)
    (host method path : GoString) (handler : H) (handlers : List M) : Option (ChiRouter H M) :=
  if method = MethodGet then r.GET DefaultOptions host path handler handlers
  else if method = MethodPost then r.POST DefaultOptions host path handler handlers
  else if method = MethodPut then r.PUT DefaultOptions host path handler handlers
  else if method = MethodPatch then r.PATCH DefaultOptions host path handler handlers
  else if method = MethodDelete then r.DELETE DefaultOptions host path handler handlers
  else if method = MethodHead then r.HEAD DefaultOptions host path handler handlers
  else if method = MethodOptions then r.OPTIONS DefaultOptions host path handler handlers
  else some r

/-- `Group` (lines 122-125). The callback `subRoute` is given by what it does to the
sub-router it receives. -/
def ChiRouter.Group (DefaultOptions : Options H) (r : ChiRouter H M) (host path : GoString)
    (subRoute : Mux H M → Mux H M) : Option (ChiRouter H M) :=
  match r.selectRouter DefaultOptions host with
  | (r, some mx) => some (r.store host (mx.Route path subRoute))
  | (_, none) => none

/-- `Use` (lines 128-131). -/
def ChiRouter.Use (DefaultOptions : Options H) (r : ChiRouter H M) (host : GoString)
    (handlers : List M) : Option (ChiRouter H M) :=
  match r.selectRouter DefaultOptions host with
  | (r, some mx) => some (r.store host (mx.Use (wrapConstructor handlers)))
  | (_, none) => none

mutual
/-- `routesCount` (lines 144-152) on the routes of a tree. -/
def routesCount : Mux H M → Nat
  | .mk _ _ routes => routes.length + routesCountLoop routes
/-- The loop of `routesCount` (lines 146-150). -/
def routesCountLoop : List (Route H M) → Nat
  | [] => 0
  | route :: rest => routesCountRoute route + routesCountLoop rest
/-- The body of the loop of `routesCount` (lines 147-149). -/
def routesCountRoute : Route H M → Nat
  | .mk _ _ none => 0
  | .mk _ _ (some sub) => routesCount sub
end

/-- `RoutesCount` (lines 134-142): the loop adds up `count`, the `return` does not use it.
Reading the routes of a `nil` router panics (`none`). -/
def ChiRouter.RoutesCount (r : ChiRouter H M) : Option Nat :=
  let count := 0
  let _count := r.hosts.foldl (fun count entry => count + routesCount entry.2) count
  (mapGet r.hosts "*".toList).map routesCount

/-- `ServeHTTP` (lines 39-49), given what a go-chi tree answers to a request (`serve`).
Line 48 on a table without `*` calls a method of a `nil` router and panics (`none`). -/
def ChiRouter.ServeHTTP (serve : Mux H M → Request → R) (r : ChiRouter H M) (req : Request) :
    Option R :=
  let hostName := requestHost req
  match mapGet r.hosts hostName with
  | some router => some (serve router req)
  | none => (mapGet r.hosts "*".toList).map fun router => serve router req

end Adapter

/-! ## Sequences of calls -/

/-- One call of an operation of the `Router` interface (`router.go`, lines 20-37). -/
inductive Op (H M : Type) where
  | Handle (host method path : GoString) (handler : H) (handlers : List M) : Op H M
  | Any (host path : GoString) (handler : H) (handlers : List M) : Op H M
  | GET (host path : GoString) (handler : H) (handlers : List M) : Op H M
  | POST (host path : GoString) (handler : H) (handlers : List M) : Op H M
  | PUT (host path : GoString) (handler : H) (handlers : List M) : Op H M
  | DELETE (host path : GoString) (handler : H) (handlers : List M) : Op H M
  | PATCH (host path : GoString) (handler : H) (handlers : List M) : Op H M
  | HEAD (host path : GoString) (handler : H) (handlers : List M) : Op H M
  | OPTIONS (host path : GoString) (handler : H) (handlers : List M) : Op H M
  | TRACE (host path : GoString) (handler : H) (handlers : List M) : Op H M
  | CONNECT (host path : GoString) (handler : H) (handlers : List M) : Op H M
  | Group (host path : GoString) (subRoute : Mux H M → Mux H M) : Op H M
  | Use (host : GoString) (handlers : List M) : Op H M
  | ServeHTTP (req : Request) : Op H M
  | RoutesCount : Op H M

section Calls
variable {H M R : Type}

/-- The host argument of a registration call; `ServeHTTP` and `RoutesCount` have none. -/
def Op.host : Op H M → Option GoString
  | .Handle host _ _ _ _ => some host
  | .Any host _ _ _ => some host
  | .GET host _ _ _ => some host
  | .POST host _ _ _ => some host
  | .PUT host _ _ _ => some host
  | .DELETE host _ _ _ => some host
  | .PATCH host _ _ _ => some host
  | .HEAD host _ _ _ => some host
  | .OPTIONS host _ _ _ => some host
  | .TRACE host _ _ _ => some host
  | .CONNECT host _ _ _ => some host
  | .Group host _ _ => some host
  | .Use host _ => some host
  | .ServeHTTP _ => none
  | .RoutesCount => none

/-- The router after one call; `none` when the code of the adapter panics on a `nil`
router. -/
def Op.apply (DefaultOptions : Options H) (serve : Mux H M → Request → R)
    (r : ChiRouter H M) : Op H M → Option (ChiRouter H M)
  | .Handle host method path handler handlers =>
    r.Handle DefaultOptions host method path handler handlers
  | .Any host path handler handlers => r.Any DefaultOptions host path handler handlers
  | .GET host path handler handlers => r.GET DefaultOptions host path handler handlers
  | .POST host path handler handlers => r.POST DefaultOptions host path handler handlers
  | .PUT host path handler handlers => r.PUT DefaultOptions host path handler handlers
  | .DELETE host path handler handlers => r.DELETE DefaultOptions host path handler handlers
  | .PATCH host path handler handlers => r.PATCH DefaultOptions host path handler handlers
  | .HEAD host path handler handlers => r.HEAD DefaultOptions host path handler handlers
  | .OPTIONS host path handler handlers => r.OPTIONS DefaultOptions host path handler handlers
  | .TRACE host path handler handlers => r.TRACE DefaultOptions host path handler handlers
  | .CONNECT host path handler handlers => r.CONNECT DefaultOptions host path handler handlers
  | .Group host path subRoute => r.Group DefaultOptions host path subRoute
  | .Use host handlers => r.Use DefaultOptions host handlers
  | .ServeHTTP req => (r.ServeHTTP serve req).map fun _ => r
  | .RoutesCount => r.RoutesCount.map fun _ => r

/-- The router after a finite sequence of calls, `none` when the code of the adapter
panics in one of them. -/
def runOps (DefaultOptions : Options H) (serve : Mux H M → Request → R) :
    ChiRouter H M → List (Op H M) → Option (ChiRouter H M)
  | r, [] => some r
  | r, op :: ops =>
    match op.apply DefaultOptions serve r with
    | some r => runOps DefaultOptions serve r ops
    | none => none

/-! ## Counting routes, as the specification words it -/

mutual
/-- The leaf routes of a tree: the routes without sub-routes, at every nesting level. -/
def leafCount : Mux H M → Nat
  | .mk _ _ routes => leafCountList routes
/-- The leaf routes below a list of routes. -/
def leafCountList : List (Route H M) → Nat
  | [] => 0
  | route :: rest => leafCountRoute route + leafCountList rest
/-- The leaf routes at and below one route. -/
def leafCountRoute : Route H M → Nat
  | .mk _ _ none => 1
  | .mk _ _ (some sub) => leafCount sub
end

mutual
/-- The routes of a tree that carry sub-routes, at every nesting level. -/
def groupCount : Mux H M → Nat
  | .mk _ _ routes => groupCountList routes
/-- The routes with sub-routes below a list of routes. -/
def groupCountList : List (Route H M) → Nat
  | [] => 0
  | route :: rest => groupCountRoute route + groupCountList rest
/-- The routes with sub-routes at and below one route. -/
def groupCountRoute : Route H M → Nat
  | .mk _ _ none => 0
  | .mk _ _ (some sub) => 1 + groupCount sub
end

/-- The sum, over every host of the table, of the route count of the tree of the host. -/
def hostsRoutesSum (r : ChiRouter H M) : Nat :=
  (r.hosts.map fun entry => routesCount entry.2).sum

/-- The sum, over every host of the table, of the leaf routes of the tree of the host. -/
def hostsLeafSum (r : ChiRouter H M) : Nat :=
  (r.hosts.map fun entry => leafCount entry.2).sum

end Calls

/-! ## Sample values -/

/-- Sample options: handlers and middleware are numbered, 404 is the not-found handler. -/
def demoOptions : Options Nat := ⟨404, true⟩

/-- A sample dispatch of a tree: the number of the handler registered for the exact path and
method of the request (0 for a mount point), else the not-found handler of the tree. -/
def demoServe (mx : Mux Nat Nat) (req : Request) : Nat :=
  match mx.Routes.find? fun rt => rt.Pattern == req.Path with
  | some rt =>
    match mapGet rt.Handlers req.Method with
    | some (.chain _ h) => h
    | _ => mx.notFoundHandler.getD 0
  | none => mx.notFoundHandler.getD 0

/-- A fresh router. -/
def demoRouter : ChiRouter Nat Nat := NewChiRouter demoOptions

/-- Three paths on `*`, then two on `api.example.com`, one of them inside a group. -/
def demoOps : List (Op Nat Nat) :=
  [.GET "*".toList "/a".toList 1 [],
   .GET "*".toList "/b".toList 2 [],
   .GET "*".toList "/c".toList 3 [],
   .GET "api.example.com".toList "/users".toList 4 [],
   .Group "api.example.com".toList "/v1".toList
     fun sub => sub.handle MethodGet "/items".toList (.chain [] 5)]

/-- A tree with one group that holds one route. -/
def demoGroupTree : Mux Nat Nat :=
  (Mux.NewRouter : Mux Nat Nat).Route "/v1".toList
    fun sub => sub.handle MethodGet "/items".toList (.chain [] 5)

/-- A request for `/a` on a host given by its Host field. -/
def demoRequest (host : GoString) : Request :=
  ⟨MethodGet, "/a".toList, [("Accept".toList, ["*/*".toList])], host⟩

/-! ## Forwarded tokens, as the specification words them -/

/-- The component of the result `(addr, proto, host)` of `parseForwarded` that the token
`name` (`for`, `proto` or `host`) sets. -/
def tokenField (name : GoString) (t : GoString × GoString × GoString) : GoString :=
  if name = "for".toList then t.1
  else if name = "proto".toList then t.2.1
  else t.2.2

/-- Whether a `;`-separated piece of a Forwarded header is a `token=value` pair whose token,
trimmed and lower-cased, is `name`. -/
def isTokenPair (name p : GoString) : Bool :=
  match SplitN2 p '=' with
  | [token, _] => ToLower (TrimSpace token) = name
  | _ => false

/-- Two characters that are equal or are the upper-case and the lower-case form of one
ASCII letter. -/
def sameLetter (a b : Char) : Bool :=
  a = b || (decide ('A' ≤ a ∧ a ≤ 'Z') && b.toNat = a.toNat + 32) ||
    (decide ('A' ≤ b ∧ b ≤ 'Z') && a.toNat = b.toNat + 32)

/-- Whether `t` is an upper/lower-case variant of `s`: the same text up to the case of its
ASCII letters. -/
def caseVariant : GoString → GoString → Bool
  | [], [] => true
  | a :: s, b :: t => sameLetter a b && caseVariant s t
  | _, _ => false

/-! ## Lemmas on trimming and on the loop of `parseForwarded` -/

theorem head?_dropWhile_false (f : Char → Bool) (s : GoString) (c : Char)
    (h : (s.dropWhile f).head? = some c) : f c = false := by
  induction s with
  | nil => simp at h
  | cons a t ih =>
    by_cases ha : f a = true
    · rw [List.dropWhile_cons_of_pos ha] at h; exact ih h
    · rw [List.dropWhile_cons_of_neg ha] at h
      simp at h; subst h; simpa using ha

theorem getLast?_dropWhile (f : Char → Bool) (s : GoString) (c : Char)
    (h : (s.dropWhile f).getLast? = some c) : s.getLast? = some c := by
  induction s with
  | nil => simp at h
  | cons a t ih =>
    by_cases ha : f a = true
    · rw [List.dropWhile_cons_of_pos ha] at h
      have := ih h
      cases t with
      | nil => simp at this
      | cons b u => simpa [List.getLast?_cons_cons] using this
    · rw [List.dropWhile_cons_of_neg ha] at h; exact h

theorem TrimFunc_head? (f : Char → Bool) (s : GoString) (c : Char)
    (h : (TrimFunc s f).head? = some c) : f c = false := by
  unfold TrimFunc at h
  rw [List.head?_reverse] at h
  have h2 := getLast?_dropWhile f _ c h
  rw [List.getLast?_reverse] at h2
  exact head?_dropWhile_false f s c h2

theorem TrimFunc_getLast? (f : Char → Bool) (s : GoString) (c : Char)
    (h : (TrimFunc s f).getLast? = some c) : f c = false := by
  unfold TrimFunc at h
  rw [List.getLast?_reverse] at h
  exact head?_dropWhile_false f _ c h


theorem parseForwardedPair_not_host (acc : GoString × GoString × GoString) (p : GoString)
    (h : isHostPair p = false) : (parseForwardedPair acc p).2.2 = acc.2.2 := by
  unfold isHostPair at h
  unfold parseForwardedPair
  unfold SplitN2 at h ⊢
  cases hc : cutFirst p '=' with
  | none => simp
  | some ab =>
    obtain ⟨a, b⟩ := ab
    simp only [hc, decide_eq_false_iff_not] at h
    simp only
    split_ifs <;> rfl

theorem parseForwardedPair_host (acc : GoString × GoString × GoString)
    (p token value : GoString) (hp : SplitN2 p '=' = [token, value])
    (ht : ToLower (TrimSpace token) = "host".toList) :
    (parseForwardedPair acc p).2.2 = TrimSpace (Trim value '"') := by
  unfold parseForwardedPair
  rw [hp]
  simp only [ht]
  rfl

theorem foldl_not_host (after : List GoString) (acc : GoString × GoString × GoString)
    (h : ∀ p ∈ after, isHostPair p = false) :
    (after.foldl parseForwardedPair acc).2.2 = acc.2.2 := by
  induction after generalizing acc with
  | nil => rfl
  | cons p ps ih =>
    rw [List.foldl_cons, ih _ (fun q hq => h q (List.mem_cons_of_mem _ hq)),
      parseForwardedPair_not_host acc p (h p (List.mem_cons_self _ _))]

theorem parseForwarded_last_host (forwarded : GoString) (before after : List GoString)
    (pair token value : GoString)
    (hs : Split forwarded ';' = before ++ pair :: after)
    (hp : SplitN2 pair '=' = [token, value])
    (ht : ToLower (TrimSpace token) = "host".toList)
    (ha : ∀ p ∈ after, isHostPair p = false) :
    (parseForwarded forwarded).2.2 = TrimSpace (Trim value '"') := by
  unfold parseForwarded
  by_cases h0 : forwarded = []
  · exfalso
    subst h0
    have : [([] : GoString)] = before ++ pair :: after := hs
    cases before with
    | nil =>
      simp only [List.nil_append, List.cons.injEq] at this
      obtain ⟨rfl, -⟩ := this
      simp [SplitN2, cutFirst] at hp
    | cons b bs =>
      have := congrArg List.length this
      simp at this
  · rw [if_neg h0, hs, List.foldl_append, List.foldl_cons, foldl_not_host _ _ ha,
      parseForwardedPair_host _ pair token value hp ht]

/-- C1. When the X-Forwarded-Host header is non-empty, `requestHost` returns exactly that
header value, whatever the Forwarded header and the Host field of the request are. -/
theorem requestHost_x_forwarded_host (r : Request)
    (h : r.Header.Get "X-Forwarded-Host".toList ≠ []) :
    requestHost r = r.Header.Get "X-Forwarded-Host".toList := by
  unfold requestHost
  simp only [if_pos h]

theorem requestHost_x_forwarded_host_witness :
    requestHost ⟨"GET".toList, "/".toList,
        [("Forwarded".toList, ["host=b.example".toList]),
         ("X-Forwarded-Host".toList, ["a.example".toList])], "c.example".toList⟩
      = "a.example".toList :=
  requestHost_x_forwarded_host ⟨"GET".toList, "/".toList,
        [("Forwarded".toList, ["host=b.example".toList]),
         ("X-Forwarded-Host".toList, ["a.example".toList])], "c.example".toList⟩ (by decide)

/-- C2 (as stated, refuted). With no X-Forwarded-Host header and the Forwarded header
`host="example.com" ;proto=https`, whose `host` pair has a non-empty value, `requestHost`
returns `example.com"`: the result ends with a double quote. -/
theorem requestHost_forwarded_keeps_quote :
    (requestHost ⟨"GET".toList, "/".toList,
        [("Forwarded".toList, ["host=\"example.com\" ;proto=https".toList])],
        "c.example".toList⟩ = "example.com\"".toList) ∧
    (requestHost ⟨"GET".toList, "/".toList,
        [("Forwarded".toList, ["host=\"example.com\" ;proto=https".toList])],
        "c.example".toList⟩).getLast? = some '"' := by
  decide

/-- C2 (amended). With no (or an empty) X-Forwarded-Host header, when the last `host` pair
of the Forwarded header has the raw value `value` and `TrimSpace (Trim value "\"")` is not
empty, `requestHost` returns `TrimSpace (Trim value "\"")`; that result has no whitespace
at its start and none at its end. -/
theorem requestHost_forwarded_host (r : Request) (before after : List GoString)
    (pair token value : GoString)
    (hx : r.Header.Get "X-Forwarded-Host".toList = [])
    (hs : Split (r.Header.Get "Forwarded".toList) ';' = before ++ pair :: after)
    (hp : SplitN2 pair '=' = [token, value])
    (ht : ToLower (TrimSpace token) = "host".toList)
    (ha : ∀ p ∈ after, isHostPair p = false)
    (hv : TrimSpace (Trim value '"') ≠ []) :
    requestHost r = TrimSpace (Trim value '"') ∧
    (∀ c, (requestHost r).head? = some c → isSpace c = false) ∧
    (∀ c, (requestHost r).getLast? = some c → isSpace c = false) := by
  have hr : requestHost r = TrimSpace (Trim value '"') := by
    unfold requestHost
    simp only [hx, ne_eq, not_true_eq_false, if_false]
    rw [parseForwarded_last_host _ before after pair token value hs hp ht ha]
    simp only [if_pos hv]
  rw [hr]
  exact ⟨rfl, fun c hc => TrimFunc_head? isSpace _ c hc,
    fun c hc => TrimFunc_getLast? isSpace _ c hc⟩

theorem requestHost_forwarded_host_witness :
    requestHost ⟨"GET".toList, "/".toList,
        [("Forwarded".toList, ["for=10.0.0.1; Host=\"example.com\";proto=https".toList])],
        "c.example".toList⟩ = "example.com".toList := by
  have h := requestHost_forwarded_host
    ⟨"GET".toList, "/".toList,
        [("Forwarded".toList, ["for=10.0.0.1; Host=\"example.com\";proto=https".toList])],
        "c.example".toList⟩
    ["for=10.0.0.1".toList] ["proto=https".toList]
    " Host=\"example.com\"".toList " Host".toList "\"example.com\"".toList
    (by decide) (by decide) (by decide) (by decide) (by decide) (by decide)
  exact h.1.trans (by decide)

/-- C3. When the request has neither an X-Forwarded-Host nor a Forwarded header (or
both are empty), `requestHost` returns the Host field of the request unchanged. -/
theorem requestHost_host_field (r : Request)
    (hx : r.Header.Get "X-Forwarded-Host".toList = [])
    (hf : r.Header.Get "Forwarded".toList = []) :
    requestHost r = r.Host := by
  unfold requestHost
  simp only [hx, hf, parseForwarded, ne_eq, not_true_eq_false, if_false, if_true]

theorem requestHost_host_field_witness :
    requestHost ⟨"GET".toList, "/".toList,
        [("Accept".toList, ["*/*".toList])], "c.example".toList⟩ = "c.example".toList :=
  requestHost_host_field ⟨"GET".toList, "/".toList,
        [("Accept".toList, ["*/*".toList])], "c.example".toList⟩ (by decide) (by decide)

/-! ## Lemmas on the host table -/

section Proofs
variable {H M R V : Type}

theorem mapGet_mapSet_self (m : List (GoString × V)) (k : GoString) (v : V) :
    mapGet (mapSet m k v) k = some v := by
  induction m with
  | nil => simp [mapSet, mapGet]
  | cons e m ih =>
    obtain ⟨k', w⟩ := e
    by_cases hk : k' = k
    · simp [mapSet, mapGet, hk]
    · simp [mapSet, mapGet, hk, ih]

theorem mapGet_mapSet_ne (m : List (GoString × V)) (k g : GoString) (v : V) (h : g ≠ k) :
    mapGet (mapSet m k v) g = mapGet m g := by
  induction m with
  | nil => simp [mapSet, mapGet, Ne.symm h]
  | cons e m ih =>
    obtain ⟨k', w⟩ := e
    by_cases hk : k' = k
    · subst hk
      simp [mapSet, mapGet, Ne.symm h]
    · by_cases hg : k' = g
      · subst hg
        simp [mapSet, mapGet, hk]
      · simp [mapSet, mapGet, hk, hg, ih]

theorem mapSet_absent (m : List (GoString × V)) (k : GoString) (v : V)
    (h : mapGet m k = none) : mapSet m k v = m ++ [(k, v)] := by
  induction m with
  | nil => rfl
  | cons e m ih =>
    obtain ⟨k', w⟩ := e
    by_cases hk : k' = k
    · simp [mapGet, hk] at h
    · simp only [mapGet, hk, if_false] at h
      simp [mapSet, hk, ih h]

theorem selectRouter_present (D : Options H) (r : ChiRouter H M) (h : GoString) (t : Mux H M)
    (ht : mapGet r.hosts h = some t) : r.selectRouter D h = (r, some t) := by
  simp [ChiRouter.selectRouter, ht]

theorem selectRouter_absent (D : Options H) (r : ChiRouter H M) (h : GoString)
    (hn : mapGet r.hosts h = none) :
    r.selectRouter D h =
      (r.newHostRouter D h, some ((Mux.NewRouter : Mux H M).NotFound D.NotFoundHandler)) := by
  simp [ChiRouter.selectRouter, hn, ChiRouter.newHostRouter, mapGet_mapSet_self]

theorem selectRouter_frame (D : Options H) (r : ChiRouter H M) (h : GoString) :
    ∃ t, (r.selectRouter D h).2 = some t ∧ mapGet (r.selectRouter D h).1.hosts h = some t ∧
      ∀ g, g ≠ h → mapGet (r.selectRouter D h).1.hosts g = mapGet r.hosts g := by
  cases hc : mapGet r.hosts h with
  | none =>
    rw [selectRouter_absent D r h hc]
    refine ⟨_, rfl, ?_, ?_⟩
    · simp [ChiRouter.newHostRouter, mapGet_mapSet_self]
    · intro g hg
      simp [ChiRouter.newHostRouter, mapGet_mapSet_ne _ _ _ _ hg]
  | some t =>
    rw [selectRouter_present D r h t hc]
    exact ⟨t, rfl, hc, fun _ _ => rfl⟩

theorem store_frame (D : Options H) (r : ChiRouter H M) (host : GoString)
    (k : Mux H M → Mux H M) :
    ∃ r', (match r.selectRouter D host with
        | (r, some mx) => some (r.store host (k mx))
        | (_, none) => none) = some r' ∧
      (mapGet r'.hosts host).isSome = true ∧
      ∀ g, g ≠ host → mapGet r'.hosts g = mapGet r.hosts g := by
  obtain ⟨t, h1, -, h3⟩ := selectRouter_frame D r host
  generalize r.selectRouter D host = p at h1 h3
  obtain ⟨r1, o⟩ := p
  simp only at h1 h3
  subst h1
  refine ⟨_, rfl, ?_, ?_⟩
  · simp [ChiRouter.store, mapGet_mapSet_self]
  · intro g hg
    simp [ChiRouter.store, mapGet_mapSet_ne _ _ _ _ hg, h3 g hg]

theorem with_frame (D : Options H) (r : ChiRouter H M) (host : GoString) (handlers : List M)
    (k : InlineMux H M → Mux H M) :
    ∃ r', (r.with_ D host handlers).map (fun p => p.1.store host (k p.2)) = some r' ∧
      (mapGet r'.hosts host).isSome = true ∧
      ∀ g, g ≠ host → mapGet r'.hosts g = mapGet r.hosts g := by
  obtain ⟨r', h1, h2, h3⟩ := store_frame D r host (fun mx => k (mx.With (wrapConstructor handlers)))
  refine ⟨r', ?_, h2, h3⟩
  rw [← h1]
  unfold ChiRouter.with_
  generalize r.selectRouter D host = p
  obtain ⟨r1, o⟩ := p
  cases o <;> rfl

theorem apply_frame (D : Options H) (serve : Mux H M → Request → R) (r : ChiRouter H M)
    (op : Op H M) (h : GoString) (hop : op.host = some h) :
    ∃ r', op.apply D serve r = some r' ∧
      ((mapGet r.hosts h).isSome = true → (mapGet r'.hosts h).isSome = true) ∧
      ∀ g, g ≠ h → mapGet r'.hosts g = mapGet r.hosts g := by
  have weaken : ∀ res : Option (ChiRouter H M),
      (∃ r', res = some r' ∧ (mapGet r'.hosts h).isSome = true ∧
        ∀ g, g ≠ h → mapGet r'.hosts g = mapGet r.hosts g) →
      ∃ r', res = some r' ∧
        ((mapGet r.hosts h).isSome = true → (mapGet r'.hosts h).isSome = true) ∧
        ∀ g, g ≠ h → mapGet r'.hosts g = mapGet r.hosts g := by
    rintro res ⟨r', h1, h2, h3⟩
    exact ⟨r', h1, fun _ => h2, h3⟩
  cases op with
  | Handle host method path handler handlers =>
    simp only [Op.host, Option.some.injEq] at hop
    subst hop
    simp only [Op.apply, ChiRouter.Handle]
    split_ifs
    · exact weaken _ (with_frame D r host handlers fun im => im.Get path handler)
    · exact weaken _ (with_frame D r host handlers fun im => im.Post path handler)
    · exact weaken _ (with_frame D r host handlers fun im => im.Put path handler)
    · exact weaken _ (with_frame D r host handlers fun im => im.Patch path handler)
    · exact weaken _ (with_frame D r host handlers fun im => im.Delete path handler)
    · exact weaken _ (with_frame D r host handlers fun im => im.Head path handler)
    · exact weaken _ (with_frame D r host handlers fun im => im.Options path handler)
    · exact ⟨r, rfl, id, fun _ _ => rfl⟩
  | Group host path subRoute =>
    simp only [Op.host, Option.some.injEq] at hop
    subst hop
    exact weaken _ (store_frame D r host _)
  | Use host handlers =>
    simp only [Op.host, Option.some.injEq] at hop
    subst hop
    exact weaken _ (store_frame D r host _)
  | ServeHTTP req => simp [Op.host] at hop
  | RoutesCount => simp [Op.host] at hop
  | _ host path handler handlers =>
    simp only [Op.host, Option.some.injEq] at hop
    subst hop
    first
      | exact weaken _ (with_frame D r host handlers fun im => im.Handle path handler)
      | exact weaken _ (with_frame D r host handlers fun im => im.Get path handler)
      | exact weaken _ (with_frame D r host handlers fun im => im.Post path handler)
      | exact weaken _ (with_frame D r host handlers fun im => im.Put path handler)
      | exact weaken _ (with_frame D r host handlers fun im => im.Patch path handler)
      | exact weaken _ (with_frame D r host handlers fun im => im.Delete path handler)
      | exact weaken _ (with_frame D r host handlers fun im => im.Head path handler)
      | exact weaken _ (with_frame D r host handlers fun im => im.Options path handler)
      | exact weaken _ (with_frame D r host handlers fun im => im.Trace path handler)
      | exact weaken _ (with_frame D r host handlers fun im => im.Connect path handler)

mutual
theorem routesCount_eq_aux : ∀ t : Mux H M, routesCount t = leafCount t + groupCount t
  | .mk _ _ routes => by
    rw [routesCount, leafCount, groupCount]
    exact routesCountLoop_eq_aux routes
theorem routesCountLoop_eq_aux : ∀ l : List (Route H M),
    l.length + routesCountLoop l = leafCountList l + groupCountList l
  | [] => rfl
  | route :: rest => by
    rw [routesCountLoop, leafCountList, groupCountList, List.length_cons]
    have h1 := routesCountLoop_eq_aux rest
    have h2 := routesCountRoute_eq_aux route
    omega
theorem routesCountRoute_eq_aux : ∀ rt : Route H M,
    1 + routesCountRoute rt = leafCountRoute rt + groupCountRoute rt
  | .mk _ _ none => rfl
  | .mk _ _ (some sub) => by
    rw [routesCountRoute, leafCountRoute, groupCountRoute, routesCount_eq_aux sub]
    omega
end

/-! ## The host table, serving and counting -/

theorem apply_keeps (D : Options H) (serve : Mux H M → Request → R) (r : ChiRouter H M)
    (op : Op H M) (hstar : (mapGet r.hosts "*".toList).isSome = true) :
    ∃ r', op.apply D serve r = some r' ∧
      ∀ g, (mapGet r.hosts g).isSome = true → (mapGet r'.hosts g).isSome = true := by
  cases hh : op.host with
  | some h =>
    obtain ⟨r', h1, h2, h3⟩ := apply_frame D serve r op h hh
    refine ⟨r', h1, fun g hg => ?_⟩
    by_cases hgh : g = h
    · subst hgh; exact h2 hg
    · rw [h3 g hgh]; exact hg
  | none =>
    obtain ⟨w, hw⟩ := Option.isSome_iff_exists.mp hstar
    cases op with
    | ServeHTTP req =>
      refine ⟨r, ?_, fun _ hg => hg⟩
      simp only [Op.apply, ChiRouter.ServeHTTP]
      cases mapGet r.hosts (requestHost req) <;> simp only [hw, Option.map]
    | RoutesCount =>
      exact ⟨r, by simp only [Op.apply, ChiRouter.RoutesCount, hw, Option.map], fun _ hg => hg⟩
    | _ => simp [Op.host] at hh

theorem runOps_keeps (D : Options H) (serve : Mux H M → Request → R) (ops : List (Op H M)) :
    ∀ r : ChiRouter H M, (mapGet r.hosts "*".toList).isSome = true →
      ∃ r', runOps D serve r ops = some r' ∧ (mapGet r'.hosts "*".toList).isSome = true := by
  induction ops with
  | nil => exact fun r hr => ⟨r, rfl, hr⟩
  | cons op ops ih =>
    intro r hr
    obtain ⟨r1, h1, h2⟩ := apply_keeps D serve r op hr
    obtain ⟨r2, h3, h4⟩ := ih r1 (h2 _ hr)
    exact ⟨r2, by simp only [runOps, h1, h3], h4⟩

theorem new_has_wildcard (D options : Options H) :
    (mapGet (NewChiRouterWithOptions D options : ChiRouter H M).hosts "*".toList).isSome
      = true := by
  simp [NewChiRouterWithOptions, ChiRouter.newHostRouter, mapGet_mapSet_self]

/-- C4. In every state reached from the constructor, `ServeHTTP` does not panic and answers
with what the tree stored under the resolved host answers when the table has an entry for
that host, and otherwise with what the tree stored under `*` answers. -/
theorem ServeHTTP_delegates (D options : Options H) (serve : Mux H M → Request → R)
    (ops : List (Op H M)) (r : ChiRouter H M) (req : Request)
    (hr : runOps D serve (NewChiRouterWithOptions D options) ops = some r) :
    ∃ w, mapGet r.hosts "*".toList = some w ∧
      r.ServeHTTP serve req = some (serve ((mapGet r.hosts (requestHost req)).getD w) req) := by
  obtain ⟨r', h1, h2⟩ := runOps_keeps D serve ops _ (new_has_wildcard D options)
  rw [hr] at h1
  cases h1
  obtain ⟨w, hw⟩ := Option.isSome_iff_exists.mp h2
  refine ⟨w, hw, ?_⟩
  simp only [ChiRouter.ServeHTTP]
  cases mapGet r.hosts (requestHost req) <;> simp only [hw, Option.map, Option.getD]

theorem ServeHTTP_delegates_witness :
    ∃ w, mapGet ((demoRouter.GET demoOptions "a.example".toList "/a".toList 1 []).getD
          demoRouter).hosts "*".toList = some w ∧
      ((demoRouter.GET demoOptions "a.example".toList "/a".toList 1 []).getD
          demoRouter).ServeHTTP demoServe (demoRequest "b.example".toList)
        = some (demoServe ((mapGet ((demoRouter.GET demoOptions "a.example".toList
            "/a".toList 1 []).getD demoRouter).hosts
              (requestHost (demoRequest "b.example".toList))).getD w)
            (demoRequest "b.example".toList)) :=
  ServeHTTP_delegates demoOptions demoOptions demoServe
    [.GET "a.example".toList "/a".toList 1 []]
    ((demoRouter.GET demoOptions "a.example".toList "/a".toList 1 []).getD demoRouter)
    (demoRequest "b.example".toList) rfl

/-- C5. The constructor stores an entry for `*`; whenever the constructor followed by a
finite sequence of calls of the operations of the router has returned a router, its host
table has an entry for `*`; and no further call that returns removes it. -/
theorem wildcard_always_present (D options : Options H) (serve : Mux H M → Request → R)
    (ops : List (Op H M)) (r : ChiRouter H M)
    (hr : runOps D serve (NewChiRouterWithOptions D options) ops = some r) :
    (mapGet (NewChiRouterWithOptions D options : ChiRouter H M).hosts "*".toList).isSome
      = true ∧
    (mapGet r.hosts "*".toList).isSome = true ∧
    ∀ (op : Op H M) (r' : ChiRouter H M), op.apply D serve r = some r' →
      (mapGet r'.hosts "*".toList).isSome = true := by
  obtain ⟨r₀, h0, hs⟩ := runOps_keeps D serve ops _ (new_has_wildcard D options)
  rw [hr] at h0
  cases h0
  refine ⟨new_has_wildcard D options, hs, fun op r' ha => ?_⟩
  obtain ⟨r'', h1, h2⟩ := apply_keeps D serve r op hs
  rw [ha] at h1
  cases h1
  exact h2 _ hs

theorem wildcard_always_present_witness :
    (mapGet (NewChiRouterWithOptions demoOptions demoOptions : ChiRouter Nat Nat).hosts
      "*".toList).isSome = true ∧
    (mapGet ((runOps demoOptions demoServe demoRouter demoOps).getD demoRouter).hosts
      "*".toList).isSome = true ∧
    ∀ (op : Op Nat Nat) (r' : ChiRouter Nat Nat),
      op.apply demoOptions demoServe
        ((runOps demoOptions demoServe demoRouter demoOps).getD demoRouter) = some r' →
      (mapGet r'.hosts "*".toList).isSome = true :=
  wildcard_always_present demoOptions demoOptions demoServe demoOps
    ((runOps demoOptions demoServe demoRouter demoOps).getD demoRouter) rfl

/-- C6. For a host `h` that has no entry yet, two calls of `selectRouter` with `h` return
the same tree, which is the one the table stores under `h`; the second call leaves the
router as the first one left it, and the table is the earlier table with one entry, for
`h`, added. The tree returned later is the instance returned first: whatever change `k` has
been made in place to the tree of the first call, a later call of `selectRouter` with `h`
returns the tree so changed, not a new one, and leaves the router as it is. -/
theorem selectRouter_idempotent (D : Options H) (r : ChiRouter H M) (h : GoString)
    (hn : mapGet r.hosts h = none) :
    ∃ t, (r.selectRouter D h).2 = some t ∧
      ((r.selectRouter D h).1.selectRouter D h).2 = some t ∧
      ((r.selectRouter D h).1.selectRouter D h).1 = (r.selectRouter D h).1 ∧
      mapGet ((r.selectRouter D h).1.selectRouter D h).1.hosts h = some t ∧
      ((r.selectRouter D h).1.selectRouter D h).1.hosts = r.hosts ++ [(h, t)] ∧
      ((r.selectRouter D h).1.selectRouter D h).1.hosts.length = r.hosts.length + 1 ∧
      (∀ g, g ≠ h →
        mapGet ((r.selectRouter D h).1.selectRouter D h).1.hosts g = mapGet r.hosts g) ∧
      ∀ k : Mux H M → Mux H M,
        ((r.selectRouter D h).1.store h (k t)).selectRouter D h
          = ((r.selectRouter D h).1.store h (k t), some (k t)) := by
  have h1 := selectRouter_absent D r h hn
  have hget : mapGet (r.newHostRouter D h).hosts h
      = some ((Mux.NewRouter : Mux H M).NotFound D.NotFoundHandler) := by
    simp [ChiRouter.newHostRouter, mapGet_mapSet_self]
  have h2 := selectRouter_present D (r.newHostRouter D h) h _ hget
  rw [h1]
  simp only
  rw [h2]
  have hhosts : (r.newHostRouter D h).hosts
      = r.hosts ++ [(h, (Mux.NewRouter : Mux H M).NotFound D.NotFoundHandler)] := by
    simp [ChiRouter.newHostRouter, mapSet_absent _ _ _ hn]
  refine ⟨_, rfl, rfl, rfl, hget, hhosts, ?_, ?_, ?_⟩
  · simp [hhosts]
  · intro g hg
    simp [ChiRouter.newHostRouter, mapGet_mapSet_ne _ _ _ _ hg]
  · intro k
    exact selectRouter_present D _ h _ (mapGet_mapSet_self _ h _)

theorem selectRouter_idempotent_witness :
    ∃ t, (demoRouter.selectRouter demoOptions "a.example".toList).2 = some t ∧
      ((demoRouter.selectRouter demoOptions "a.example".toList).1.selectRouter demoOptions
        "a.example".toList).2 = some t ∧
      ((demoRouter.selectRouter demoOptions "a.example".toList).1.selectRouter demoOptions
        "a.example".toList).1 = (demoRouter.selectRouter demoOptions "a.example".toList).1 ∧
      mapGet ((demoRouter.selectRouter demoOptions "a.example".toList).1.selectRouter
        demoOptions "a.example".toList).1.hosts "a.example".toList = some t ∧
      ((demoRouter.selectRouter demoOptions "a.example".toList).1.selectRouter demoOptions
        "a.example".toList).1.hosts = demoRouter.hosts ++ [("a.example".toList, t)] ∧
      ((demoRouter.selectRouter demoOptions "a.example".toList).1.selectRouter demoOptions
        "a.example".toList).1.hosts.length = demoRouter.hosts.length + 1 ∧
      (∀ g, g ≠ "a.example".toList →
        mapGet ((demoRouter.selectRouter demoOptions "a.example".toList).1.selectRouter
          demoOptions "a.example".toList).1.hosts g = mapGet demoRouter.hosts g) ∧
      ∀ k : Mux Nat Nat → Mux Nat Nat,
        ((demoRouter.selectRouter demoOptions "a.example".toList).1.store
            "a.example".toList (k t)).selectRouter demoOptions "a.example".toList
          = ((demoRouter.selectRouter demoOptions "a.example".toList).1.store
              "a.example".toList (k t), some (k t)) :=
  selectRouter_idempotent demoOptions demoRouter "a.example".toList rfl

/-- C7. When a registration call (`Handle`, `Any`, `GET`, `POST`, `PUT`, `DELETE`, `PATCH`,
`HEAD`, `OPTIONS`, `TRACE`, `CONNECT`, `Group`, `Use`) with host `h` has returned, then for
every host `g` other than `h` the table holds for `g` after the call what it held before:
no entry or the same tree. -/
theorem hosts_isolated (D : Options H) (serve : Mux H M → Request → R)
    (r r' : ChiRouter H M) (op : Op H M) (h : GoString) (hop : op.host = some h)
    (ha : op.apply D serve r = some r') :
    ∀ g, g ≠ h → mapGet r'.hosts g = mapGet r.hosts g := by
  obtain ⟨r'', h1, -, h3⟩ := apply_frame D serve r op h hop
  rw [ha] at h1
  cases h1
  exact h3

theorem hosts_isolated_witness :
    mapGet ((demoRouter.Use demoOptions "a.example".toList [7]).getD demoRouter).hosts
        "*".toList = mapGet demoRouter.hosts "*".toList ∧
    mapGet ((demoRouter.Use demoOptions "a.example".toList [7]).getD demoRouter).hosts
        "b.example".toList = mapGet demoRouter.hosts "b.example".toList :=
  ⟨hosts_isolated demoOptions demoServe demoRouter
      ((demoRouter.Use demoOptions "a.example".toList [7]).getD demoRouter)
      (.Use "a.example".toList [7]) "a.example".toList rfl rfl "*".toList (by decide),
    hosts_isolated demoOptions demoServe demoRouter
      ((demoRouter.Use demoOptions "a.example".toList [7]).getD demoRouter)
      (.Use "a.example".toList [7]) "a.example".toList rfl rfl "b.example".toList
      (by decide)⟩

/-- C8 (the code at the failing input). After three paths on `*` and two on
`api.example.com`, one of them inside a group, `RoutesCount` returns 3, the count of the
tree of `*` alone, while the counts of the two trees add up to 6 and their leaf routes
to 5. -/
theorem RoutesCount_counts_wildcard_only :
    ∃ r, runOps demoOptions demoServe demoRouter demoOps = some r ∧
      mapKeys r.hosts = ["*".toList, "api.example.com".toList] ∧
      r.RoutesCount = some 3 ∧ hostsRoutesSum r = 6 ∧ hostsLeafSum r = 5 :=
  ⟨_, rfl, by decide, by decide, by decide, by decide⟩

/-- C9 (as stated, refuted). For the tree with one group that holds one route,
`routesCount` returns 2, while the tree has one leaf route: the group entry is counted
too. -/
theorem routesCount_counts_group_entry :
    routesCount demoGroupTree = 2 ∧ leafCount demoGroupTree = 1 := by
  decide

/-- C9 (amended). `routesCount` is total and returns, for every finite tree, the number
of its routes counted at every nesting level: the leaf routes plus the routes that carry
sub-routes. -/
theorem routesCount_eq_leaves_add_groups (t : Mux H M) :
    routesCount t = leafCount t + groupCount t :=
  routesCount_eq_aux t

/-- C10 (the code at the failing input). On a fresh router `Handle` with method `TRACE`
or `CONNECT` leaves the router as it was, with no route, while `TRACE` and `CONNECT`
with the same arguments register one route. -/
theorem Handle_drops_TRACE_and_CONNECT :
    demoRouter.Handle demoOptions "*".toList MethodTrace "/x".toList 7 [] = some demoRouter ∧
    demoRouter.Handle demoOptions "*".toList MethodConnect "/x".toList 7 [] = some demoRouter ∧
    demoRouter.RoutesCount = some 0 ∧
    (demoRouter.TRACE demoOptions "*".toList "/x".toList 7 []).bind ChiRouter.RoutesCount
      = some 1 ∧
    (demoRouter.CONNECT demoOptions "*".toList "/x".toList 7 []).bind ChiRouter.RoutesCount
      = some 1 :=
  ⟨rfl, rfl, by decide, by decide, by decide⟩

/-- For each of the seven methods its `switch` lists, `Handle` is the per-method
operation. -/
theorem Handle_recognised (D : Options H) (r : ChiRouter H M) (host path : GoString)
    (handler : H) (handlers : List M) :
    r.Handle D host MethodGet path handler handlers = r.GET D host path handler handlers ∧
    r.Handle D host MethodPost path handler handlers = r.POST D host path handler handlers ∧
    r.Handle D host MethodPut path handler handlers = r.PUT D host path handler handlers ∧
    r.Handle D host MethodPatch path handler handlers
      = r.PATCH D host path handler handlers ∧
    r.Handle D host MethodDelete path handler handlers
      = r.DELETE D host path handler handlers ∧
    r.Handle D host MethodHead path handler handlers = r.HEAD D host path handler handlers ∧
    r.Handle D host MethodOptions path handler handlers
      = r.OPTIONS D host path handler handlers := by
  refine ⟨?_, ?_, ?_, ?_, ?_, ?_, ?_⟩ <;> rfl

/-! ## Unrecognised methods and the not-found handler -/

/-- C11. For a method string that is none of the seven the `switch` of `Handle` lists,
`Handle` returns without a panic and leaves the router as it was: no route is added and no
tree is created, also for a host that has no entry yet. -/
theorem Handle_unrecognised_method (D : Options H) (r : ChiRouter H M)
    (host method path : GoString) (handler : H) (handlers : List M)
    (h₁ : method ≠ MethodGet) (h₂ : method ≠ MethodPost) (h₃ : method ≠ MethodPut)
    (h₄ : method ≠ MethodPatch) (h₅ : method ≠ MethodDelete) (h₆ : method ≠ MethodHead)
    (h₇ : method ≠ MethodOptions) :
    r.Handle D host method path handler handlers = some r := by
  unfold ChiRouter.Handle
  rw [if_neg h₁, if_neg h₂, if_neg h₃, if_neg h₄, if_neg h₅, if_neg h₆, if_neg h₇]

theorem Handle_unrecognised_method_witness :
    demoRouter.Handle demoOptions "a.example".toList "BREW".toList "/x".toList 7 [3]
      = some demoRouter ∧ mapGet demoRouter.hosts "a.example".toList = none :=
  ⟨Handle_unrecognised_method demoOptions demoRouter "a.example".toList "BREW".toList
    "/x".toList 7 [3] (by decide) (by decide) (by decide) (by decide) (by decide) (by decide)
    (by decide), rfl⟩

/-- C12 (the code at the failing input). With `DefaultOptions.NotFoundHandler` 404, the
router built by `NewChiRouterWithOptions` from options whose `NotFoundHandler` is 500 has
one tree, for `*`, whose not-found handler is 404; so has the tree a later registration
creates for a new host, and a request for a path that is not registered is answered
by 404. -/
theorem NewChiRouterWithOptions_ignores_options :
    mapKeys (NewChiRouterWithOptions demoOptions ⟨500, true⟩ : ChiRouter Nat Nat).hosts
      = ["*".toList] ∧
    (mapGet (NewChiRouterWithOptions demoOptions ⟨500, true⟩ : ChiRouter Nat Nat).hosts
      "*".toList).bind Mux.notFoundHandler = some 404 ∧
    (((NewChiRouterWithOptions demoOptions ⟨500, true⟩ : ChiRouter Nat Nat).GET demoOptions
      "a.example".toList "/a".toList 1 []).bind fun r =>
        (mapGet r.hosts "a.example".toList).bind Mux.notFoundHandler) = some 404 ∧
    (NewChiRouterWithOptions demoOptions ⟨500, true⟩ : ChiRouter Nat Nat).ServeHTTP demoServe
      (demoRequest "b.example".toList) = some 404 :=
  ⟨by decide, by decide, by decide, by decide⟩

/-! ## Lemmas on `Split` and on pieces without `=` -/

theorem Split_ne_nil (s : GoString) (sep : Char) : Split s sep ≠ [] := by
  cases s with
  | nil => simp [Split]
  | cons c cs =>
    unfold Split
    split_ifs
    · simp
    · cases Split cs sep <;> simp

theorem Split_cons (c : Char) (cs : GoString) (sep : Char) :
    Split (c :: cs) sep =
      if c = sep then [] :: Split cs sep
      else match Split cs sep with
        | [] => [[c]]
        | p :: ps => (c :: p) :: ps := by
  rw [Split]

theorem Split_append_sep (a b : GoString) (sep : Char) :
    Split (a ++ sep :: b) sep = Split a sep ++ Split b sep := by
  induction a with
  | nil => rw [List.nil_append, Split_cons, if_pos rfl]; rfl
  | cons c a ih =>
    rw [List.cons_append, Split_cons, Split_cons, ih]
    by_cases hc : c = sep
    · simp only [hc, if_true, List.cons_append]
    · simp only [hc, if_false]
      cases hs : Split a sep with
      | nil => exact absurd hs (Split_ne_nil a sep)
      | cons p ps => rfl

theorem mem_of_mem_Split (sep : Char) : ∀ (s p : GoString), p ∈ Split s sep →
    ∀ c ∈ p, c ∈ s ∧ c ≠ sep := by
  intro s
  induction s with
  | nil =>
    intro p hp c hc
    simp only [Split, List.mem_singleton] at hp
    subst hp
    cases hc
  | cons d s ih =>
    intro p hp c hc
    unfold Split at hp
    by_cases hd : d = sep
    · simp only [hd, if_true, List.mem_cons] at hp
      rcases hp with rfl | hp
      · cases hc
      · exact ⟨List.mem_cons_of_mem _ (ih p hp c hc).1, (ih p hp c hc).2⟩
    · simp only [hd, if_false] at hp
      cases hs : Split s sep with
      | nil => exact absurd hs (Split_ne_nil s sep)
      | cons q qs =>
        rw [hs] at hp ih
        simp only [List.mem_cons] at hp
        rcases hp with rfl | hp
        · rcases List.mem_cons.mp hc with rfl | hc
          · exact ⟨List.mem_cons_self _ _, hd⟩
          · have := ih q (List.mem_cons_self _ _) c hc
            exact ⟨List.mem_cons_of_mem _ this.1, this.2⟩
        · have := ih p (List.mem_cons_of_mem _ hp) c hc
          exact ⟨List.mem_cons_of_mem _ this.1, this.2⟩

theorem cutFirst_none (sep : Char) : ∀ s : GoString, sep ∉ s → cutFirst s sep = none := by
  intro s
  induction s with
  | nil => intro _; rfl
  | cons c s ih =>
    intro h
    have hc : c ≠ sep := fun e => h (e ▸ List.mem_cons_self _ _)
    have hs : sep ∉ s := fun e => h (List.mem_cons_of_mem _ e)
    simp [cutFirst, hc, ih hs]

theorem parseForwardedPair_no_eq (acc : GoString × GoString × GoString) (p : GoString)
    (h : '=' ∉ p) : parseForwardedPair acc p = acc := by
  simp only [parseForwardedPair, SplitN2, cutFirst_none '=' p h]

theorem foldl_no_eq (l : List GoString) (acc : GoString × GoString × GoString)
    (h : ∀ p ∈ l, '=' ∉ p) : l.foldl parseForwardedPair acc = acc := by
  induction l generalizing acc with
  | nil => rfl
  | cons p ps ih =>
    rw [List.foldl_cons, parseForwardedPair_no_eq acc p (h p (List.mem_cons_self _ _))]
    exact ih acc fun q hq => h q (List.mem_cons_of_mem _ hq)

theorem parseForwarded_eq_foldl (forwarded : GoString) :
    parseForwarded forwarded = (Split forwarded ';').foldl parseForwardedPair ([], [], []) := by
  unfold parseForwarded
  by_cases h : forwarded = []
  · subst h; rfl
  · rw [if_neg h]

theorem foldl_Split_no_eq (seg : GoString) (acc : GoString × GoString × GoString)
    (h : '=' ∉ seg) : (Split seg ';').foldl parseForwardedPair acc = acc :=
  foldl_no_eq _ acc fun p hp hm => h (mem_of_mem_Split ';' seg p hp '=' hm).1

/-- C13. A segment without `=`, put between two `;`-separated parts of a Forwarded header,
in front of the header or behind it, changes none of the three results of
`parseForwarded`; for `for=10.0.0.1;proto=https;host=example.com` the host is
`example.com`. -/
theorem parseForwarded_skips_malformed (a b seg : GoString) (hseg : '=' ∉ seg) :
    parseForwarded (a ++ ';' :: (seg ++ ';' :: b)) = parseForwarded (a ++ ';' :: b) ∧
    parseForwarded (seg ++ ';' :: b) = parseForwarded b ∧
    parseForwarded (a ++ ';' :: seg) = parseForwarded a ∧
    (parseForwarded "for=10.0.0.1;proto=https;host=example.com".toList).2.2
      = "example.com".toList := by
  refine ⟨?_, ?_, ?_, by decide⟩
  · rw [parseForwarded_eq_foldl, parseForwarded_eq_foldl, Split_append_sep, Split_append_sep,
      Split_append_sep, List.foldl_append, List.foldl_append, List.foldl_append,
      foldl_Split_no_eq seg _ hseg]
  · rw [parseForwarded_eq_foldl, parseForwarded_eq_foldl, Split_append_sep,
      List.foldl_append, foldl_Split_no_eq seg _ hseg]
  · rw [parseForwarded_eq_foldl, parseForwarded_eq_foldl, Split_append_sep,
      List.foldl_append, foldl_Split_no_eq seg _ hseg]

theorem parseForwarded_skips_malformed_witness :
    parseForwarded ("for=10.0.0.1".toList ++ ';' :: ("bogus".toList ++ ';' ::
        "host=example.com".toList))
      = parseForwarded ("for=10.0.0.1".toList ++ ';' :: "host=example.com".toList) ∧
    parseForwarded ("bogus".toList ++ ';' :: "host=example.com".toList)
      = parseForwarded "host=example.com".toList ∧
    parseForwarded ("for=10.0.0.1".toList ++ ';' :: "bogus".toList)
      = parseForwarded "for=10.0.0.1".toList ∧
    (parseForwarded "for=10.0.0.1;proto=https;host=example.com".toList).2.2
      = "example.com".toList :=
  parseForwarded_skips_malformed "for=10.0.0.1".toList "host=example.com".toList
    "bogus".toList (by decide)

/-! ## Repeated tokens and the text of the host value -/

theorem tokenField_for (t : GoString × GoString × GoString) :
    tokenField "for".toList t = t.1 := rfl

theorem tokenField_proto (t : GoString × GoString × GoString) :
    tokenField "proto".toList t = t.2.1 := rfl

theorem tokenField_host (t : GoString × GoString × GoString) :
    tokenField "host".toList t = t.2.2 := rfl

theorem parseForwardedPair_other (name : GoString)
    (hname : name = "for".toList ∨ name = "proto".toList ∨ name = "host".toList)
    (acc : GoString × GoString × GoString) (p : GoString)
    (h : isTokenPair name p = false) :
    tokenField name (parseForwardedPair acc p) = tokenField name acc := by
  unfold isTokenPair at h
  unfold parseForwardedPair
  unfold SplitN2 at h ⊢
  cases hc : cutFirst p '=' with
  | none => rfl
  | some ab =>
    obtain ⟨a, b⟩ := ab
    simp only [hc, decide_eq_false_iff_not] at h
    simp only
    rcases hname with rfl | rfl | rfl
    · rw [if_neg h]
      split_ifs <;> simp only [tokenField_for]
    · split_ifs <;> simp only [tokenField_proto]
    · split_ifs <;> simp only [tokenField_host]

theorem parseForwardedPair_sets (name : GoString)
    (hname : name = "for".toList ∨ name = "proto".toList ∨ name = "host".toList)
    (acc : GoString × GoString × GoString) (p token value : GoString)
    (hp : SplitN2 p '=' = [token, value]) (ht : ToLower (TrimSpace token) = name) :
    tokenField name (parseForwardedPair acc p) = TrimSpace (Trim value '"') := by
  unfold parseForwardedPair
  rw [hp]
  simp only [ht]
  rcases hname with rfl | rfl | rfl <;> rfl

theorem foldl_other (name : GoString)
    (hname : name = "for".toList ∨ name = "proto".toList ∨ name = "host".toList)
    (after : List GoString) (acc : GoString × GoString × GoString)
    (h : ∀ p ∈ after, isTokenPair name p = false) :
    tokenField name (after.foldl parseForwardedPair acc) = tokenField name acc := by
  induction after generalizing acc with
  | nil => rfl
  | cons p ps ih =>
    rw [List.foldl_cons, ih _ (fun q hq => h q (List.mem_cons_of_mem _ hq)),
      parseForwardedPair_other name hname acc p (h p (List.mem_cons_self _ _))]

/-- C19. When the `;`-separated pieces of a Forwarded header contain a pair whose token,
trimmed and lower-cased, is `for`, `proto` or `host`, and no later piece is a pair with
that token, `parseForwarded` returns for that token the cleaned value of this pair, be it
empty or not, whatever the other pieces are. -/
theorem parseForwarded_last_pair_wins (forwarded name : GoString)
    (before after : List GoString) (pair token value : GoString)
    (hname : name = "for".toList ∨ name = "proto".toList ∨ name = "host".toList)
    (hs : Split forwarded ';' = before ++ pair :: after)
    (hp : SplitN2 pair '=' = [token, value])
    (ht : ToLower (TrimSpace token) = name)
    (ha : ∀ p ∈ after, isTokenPair name p = false) :
    tokenField name (parseForwarded forwarded) = TrimSpace (Trim value '"') := by
  rw [parseForwarded_eq_foldl, hs, List.foldl_append, List.foldl_cons,
    foldl_other name hname _ _ ha, parseForwardedPair_sets name hname _ pair token value hp ht]

theorem parseForwarded_last_pair_wins_witness :
    tokenField "host".toList (parseForwarded "host=a.example;proto=http; HOST =".toList)
      = [] :=
  parseForwarded_last_pair_wins "host=a.example;proto=http; HOST =".toList "host".toList
    ["host=a.example".toList, "proto=http".toList] [] " HOST =".toList " HOST ".toList []
    (by decide) (by decide) (by decide) (by decide) (by decide)

theorem TrimFunc_subset (f : Char → Bool) (s : GoString) (c : Char)
    (h : c ∈ TrimFunc s f) : c ∈ s := by
  unfold TrimFunc at h
  rw [List.mem_reverse] at h
  have h1 := (List.dropWhile_sublist f).subset h
  rw [List.mem_reverse] at h1
  exact (List.dropWhile_sublist f).subset h1

theorem cutFirst_some_subset (sep : Char) : ∀ (s a b : GoString),
    cutFirst s sep = some (a, b) → ∀ c ∈ b, c ∈ s := by
  intro s
  induction s with
  | nil => intro a b h; simp [cutFirst] at h
  | cons d s ih =>
    intro a b h c hc
    unfold cutFirst at h
    by_cases hd : d = sep
    · simp only [hd, if_true, Option.some.injEq, Prod.mk.injEq] at h
      rw [← h.2] at hc
      exact List.mem_cons_of_mem _ hc
    · simp only [hd, if_false] at h
      cases hs : cutFirst s sep with
      | none => simp [hs] at h
      | some ab =>
        obtain ⟨a', b'⟩ := ab
        simp only [hs, Option.some.injEq, Prod.mk.injEq] at h
        rw [← h.2] at hc
        exact List.mem_cons_of_mem _ (ih a' b' hs c hc)

theorem isHostPair_true (p : GoString) (h : isHostPair p = true) :
    ∃ token value, SplitN2 p '=' = [token, value] ∧
      ToLower (TrimSpace token) = "host".toList ∧ ∀ c ∈ value, c ∈ p := by
  unfold isHostPair at h
  unfold SplitN2 at h ⊢
  cases hc : cutFirst p '=' with
  | none => simp [hc] at h
  | some ab =>
    obtain ⟨a, b⟩ := ab
    simp only [hc, decide_eq_true_eq] at h
    exact ⟨a, b, rfl, h, cutFirst_some_subset '=' p a b hc⟩

theorem foldl_host_origin (L : List GoString) :
    ∀ (l : List GoString) (acc : GoString × GoString × GoString), (∀ p ∈ l, p ∈ L) →
      (acc.2.2 = [] ∨ ∃ piece ∈ L, ∃ token value, SplitN2 piece '=' = [token, value] ∧
        ToLower (TrimSpace token) = "host".toList ∧
        acc.2.2 = TrimSpace (Trim value '"') ∧ ∀ c ∈ value, c ∈ piece) →
      ((l.foldl parseForwardedPair acc).2.2 = [] ∨
        ∃ piece ∈ L, ∃ token value, SplitN2 piece '=' = [token, value] ∧
          ToLower (TrimSpace token) = "host".toList ∧
          (l.foldl parseForwardedPair acc).2.2 = TrimSpace (Trim value '"') ∧
          ∀ c ∈ value, c ∈ piece) := by
  intro l
  induction l with
  | nil => exact fun acc _ h => h
  | cons p ps ih =>
    intro acc hl hacc
    rw [List.foldl_cons]
    apply ih _ fun q hq => hl q (List.mem_cons_of_mem _ hq)
    cases hh : isHostPair p with
    | false => rw [parseForwardedPair_not_host acc p hh]; exact hacc
    | true =>
      obtain ⟨token, value, h1, h2, h3⟩ := isHostPair_true p hh
      exact Or.inr ⟨p, hl p (List.mem_cons_self _ _), token, value, h1, h2,
        parseForwardedPair_host acc p token value h1 h2, h3⟩

/-- C14 (as stated, refuted). For the header `for=10.0.0.1;host=example.com, for=10.0.0.2`
the host that `parseForwarded` and `requestHost` yield is `example.com, for=10.0.0.2`: it
contains a comma and the text of the next element. -/
theorem parseForwarded_host_keeps_comma :
    (parseForwarded "for=10.0.0.1;host=example.com, for=10.0.0.2".toList).2.2
      = "example.com, for=10.0.0.2".toList ∧
    requestHost ⟨MethodGet, "/".toList,
        [("Forwarded".toList, ["for=10.0.0.1;host=example.com, for=10.0.0.2".toList])],
        "c.example".toList⟩ = "example.com, for=10.0.0.2".toList ∧
    ',' ∈ (parseForwarded "for=10.0.0.1;host=example.com, for=10.0.0.2".toList).2.2 := by
  decide

/-- C14 (amended). For every Forwarded header the host that `parseForwarded` yields is empty
or is the cleaned value of a `host` token of one of the `;`-separated pieces of the header,
and it never contains a `;`: pieces are cut at `;` only, a comma is part of the value. -/
theorem parseForwarded_host_is_piece_value (forwarded : GoString) :
    ((parseForwarded forwarded).2.2 = [] ∨
      ∃ piece ∈ Split forwarded ';', ∃ token value, SplitN2 piece '=' = [token, value] ∧
        ToLower (TrimSpace token) = "host".toList ∧
        (parseForwarded forwarded).2.2 = TrimSpace (Trim value '"')) ∧
    ';' ∉ (parseForwarded forwarded).2.2 := by
  have h := foldl_host_origin (Split forwarded ';') (Split forwarded ';') ([], [], [])
    (fun _ hp => hp) (Or.inl rfl)
  rw [← parseForwarded_eq_foldl] at h
  constructor
  · rcases h with h | ⟨piece, hm, token, value, h1, h2, h3, -⟩
    · exact Or.inl h
    · exact Or.inr ⟨piece, hm, token, value, h1, h2, h3⟩
  · rcases h with h | ⟨piece, hm, token, value, -, -, h3, h4⟩
    · rw [h]; exact List.not_mem_nil _
    · intro hc
      rw [h3] at hc
      have h5 := TrimFunc_subset _ _ _ (TrimFunc_subset _ _ _ hc)
      exact (mem_of_mem_Split ';' forwarded piece hm ';' (h4 _ h5)).2 rfl

/-! ## The case of token names -/

theorem upper_letter_facts (n : Nat) (h1 : 65 ≤ n) (h2 : n ≤ 90) :
    toLowerRune (Char.ofNat n) = Char.ofNat (n + 32) ∧
    toLowerRune (Char.ofNat (n + 32)) = Char.ofNat (n + 32) ∧
    isSpace (Char.ofNat n) = false ∧ isSpace (Char.ofNat (n + 32)) = false := by
  interval_cases n <;> decide

theorem toLowerRune_of_upper (a b : Char) (h : 'A' ≤ a ∧ a ≤ 'Z')
    (hb : b.toNat = a.toNat + 32) : toLowerRune a = b ∧ toLowerRune b = b := by
  have h1 : 65 ≤ a.toNat := h.1
  have h2 : a.toNat ≤ 90 := h.2
  have ha : a = Char.ofNat a.toNat := (Char.ofNat_toNat a).symm
  have hb' : b = Char.ofNat (a.toNat + 32) := by rw [← hb, Char.ofNat_toNat]
  obtain ⟨f1, f2, -, -⟩ := upper_letter_facts a.toNat h1 h2
  rw [← ha, ← hb'] at f1
  rw [← hb'] at f2
  exact ⟨f1, f2⟩

theorem sameLetter_toLowerRune (a b : Char) (h : sameLetter a b = true) :
    toLowerRune a = toLowerRune b := by
  simp only [sameLetter, Bool.or_eq_true, Bool.and_eq_true, decide_eq_true_eq] at h
  rcases h with (h | ⟨h1, h2⟩) | ⟨h1, h2⟩
  · rw [h]
  · obtain ⟨f1, f2⟩ := toLowerRune_of_upper a b h1 h2
    rw [f1, f2]
  · obtain ⟨f1, f2⟩ := toLowerRune_of_upper b a h1 h2
    rw [f1, f2]

theorem caseVariant_ToLower : ∀ s t : GoString, caseVariant s t = true →
    ToLower s = ToLower t
  | [], [], _ => rfl
  | [], _ :: _, h => by simp [caseVariant] at h
  | _ :: _, [], h => by simp [caseVariant] at h
  | a :: s, b :: t, h => by
    simp only [caseVariant, Bool.and_eq_true] at h
    simp only [ToLower, List.map_cons]
    rw [sameLetter_toLowerRune a b h.1]
    exact congrArg _ (caseVariant_ToLower s t h.2)

theorem isSpace_toLowerRune (c : Char) : isSpace (toLowerRune c) = isSpace c := by
  unfold toLowerRune
  split_ifs with h h1 h2
  · have ha : c = Char.ofNat c.toNat := (Char.ofNat_toNat c).symm
    obtain ⟨-, -, f3, f4⟩ := upper_letter_facts c.toNat h.1 h.2
    rw [← ha] at f3
    rw [f3, f4]
  · have ha : c = Char.ofNat 0x130 := by rw [← h1, Char.ofNat_toNat]
    rw [ha]; decide
  · have ha : c = Char.ofNat 0x212A := by rw [← h2, Char.ofNat_toNat]
    rw [ha]; decide
  · rfl

theorem ToLower_TrimSpace (s : GoString) : ToLower (TrimSpace s) = TrimSpace (ToLower s) := by
  have hf : isSpace ∘ toLowerRune = isSpace := funext isSpace_toLowerRune
  unfold TrimSpace TrimFunc ToLower
  rw [List.dropWhile_map, hf, ← List.map_reverse, List.dropWhile_map, hf, List.map_reverse]

theorem sameLetter_not_letter (x : Char) (hx : x.toNat < 65) (a b : Char)
    (h : sameLetter a b = true) (hb : b = x) : a = x := by
  simp only [sameLetter, Bool.or_eq_true, Bool.and_eq_true, decide_eq_true_eq] at h
  subst hb
  rcases h with (h | ⟨h1, h2⟩) | ⟨h1, h2⟩
  · exact h
  · have h3 : 65 ≤ a.toNat := h1.1
    omega
  · have h3 : 65 ≤ b.toNat := h1.1
    omega

theorem caseVariant_not_mem (x : Char) (hx : x.toNat < 65) : ∀ s t : GoString,
    caseVariant s t = true → x ∉ s → x ∉ t
  | [], [], _, _ => List.not_mem_nil _
  | [], _ :: _, h, _ => by simp [caseVariant] at h
  | _ :: _, [], _, _ => List.not_mem_nil _
  | a :: s, b :: t, h, hs => by
    simp only [caseVariant, Bool.and_eq_true] at h
    intro hm
    rcases List.mem_cons.mp hm with e | hm
    · exact hs (sameLetter_not_letter x hx a b h.1 e.symm ▸ List.mem_cons_self _ _)
    · exact caseVariant_not_mem x hx s t h.2 (fun e => hs (List.mem_cons_of_mem _ e)) hm

theorem cutFirst_append (sep : Char) (v : GoString) : ∀ n : GoString, sep ∉ n →
    cutFirst (n ++ sep :: v) sep = some (n, v) := by
  intro n
  induction n with
  | nil => intro _; simp [cutFirst]
  | cons c n ih =>
    intro h
    have hc : c ≠ sep := fun e => h (e ▸ List.mem_cons_self _ _)
    have hs : sep ∉ n := fun e => h (List.mem_cons_of_mem _ e)
    simp [cutFirst, hc, ih hs]

theorem Split_append_of_not_mem (sep : Char) (y p : GoString) (ps : List GoString)
    (hy : Split y sep = p :: ps) : ∀ n : GoString, sep ∉ n →
      Split (n ++ y) sep = (n ++ p) :: ps := by
  intro n
  induction n with
  | nil => intro _; exact hy
  | cons c n ih =>
    intro h
    have hc : c ≠ sep := fun e => h (e ▸ List.mem_cons_self _ _)
    have hs : sep ∉ n := fun e => h (List.mem_cons_of_mem _ e)
    rw [List.cons_append, Split_cons, if_neg hc, ih hs]
    rfl

theorem parseForwardedPair_case (acc : GoString × GoString × GoString) (n n' v : GoString)
    (hvar : caseVariant n n' = true) (h1 : '=' ∉ n) :
    parseForwardedPair acc (n ++ '=' :: v) = parseForwardedPair acc (n' ++ '=' :: v) := by
  have h2 : '=' ∉ n' := caseVariant_not_mem '=' (by decide) n n' hvar h1
  have h3 : ToLower (TrimSpace n) = ToLower (TrimSpace n') := by
    rw [ToLower_TrimSpace, ToLower_TrimSpace, caseVariant_ToLower n n' hvar]
  simp only [parseForwardedPair, SplitN2, cutFirst_append '=' v n h1,
    cutFirst_append '=' v n' h2, h3]

theorem foldl_Split_case (acc : GoString × GoString × GoString) (n n' rest : GoString)
    (hvar : caseVariant n n' = true) (h1 : '=' ∉ n) (h2 : ';' ∉ n) :
    (Split (n ++ '=' :: rest) ';').foldl parseForwardedPair acc
      = (Split (n' ++ '=' :: rest) ';').foldl parseForwardedPair acc := by
  have h3 : ';' ∉ n' := caseVariant_not_mem ';' (by decide) n n' hvar h2
  cases hs : Split rest ';' with
  | nil => exact absurd hs (Split_ne_nil rest ';')
  | cons p ps =>
    have hy : Split ('=' :: rest) ';' = ('=' :: p) :: ps := by
      rw [Split_cons, if_neg (by decide), hs]
    rw [Split_append_of_not_mem ';' _ _ _ hy n h2, Split_append_of_not_mem ';' _ _ _ hy n' h3,
      List.foldl_cons, List.foldl_cons, parseForwardedPair_case acc n n' p hvar h1]

/-- C15. When a token name of a Forwarded header (the text `n` between the start of the
header or a `;` and the next `=`) is replaced by an upper/lower-case variant `n'` of it,
`parseForwarded` returns the same `(addr, proto, host)`. -/
theorem parseForwarded_token_case (pre n n' rest : GoString)
    (hpre : pre = [] ∨ ∃ a, pre = a ++ [';'])
    (hvar : caseVariant n n' = true) (h1 : '=' ∉ n) (h2 : ';' ∉ n) :
    parseForwarded (pre ++ (n ++ '=' :: rest)) = parseForwarded (pre ++ (n' ++ '=' :: rest)) := by
  rw [parseForwarded_eq_foldl, parseForwarded_eq_foldl]
  rcases hpre with rfl | ⟨a, rfl⟩
  · exact foldl_Split_case _ n n' rest hvar h1 h2
  · rw [List.append_assoc, List.append_assoc, List.singleton_append, List.singleton_append,
      Split_append_sep, Split_append_sep, List.foldl_append, List.foldl_append]
    exact foldl_Split_case _ n n' rest hvar h1 h2

theorem parseForwarded_token_case_witness :
    parseForwarded ("for=10.0.0.1;".toList ++ ("host".toList ++ '=' ::
        "example.com;proto=https".toList))
      = parseForwarded ("for=10.0.0.1;".toList ++ ("hOsT".toList ++ '=' ::
        "example.com;proto=https".toList)) :=
  parseForwarded_token_case "for=10.0.0.1;".toList "host".toList "hOsT".toList
    "example.com;proto=https".toList (Or.inr ⟨"for=10.0.0.1".toList, by decide⟩)
    (by decide) (by decide) (by decide)

/-! ## The empty host and the table under serving -/

theorem reachable_has_wildcard (D options : Options H) (serve : Mux H M → Request → R)
    (ops : List (Op H M)) (r : ChiRouter H M)
    (hr : runOps D serve (NewChiRouterWithOptions D options) ops = some r) :
    ∃ w, mapGet r.hosts "*".toList = some w := by
  obtain ⟨r', h1, h2⟩ := runOps_keeps D serve ops _ (new_has_wildcard D options)
  rw [hr] at h1
  cases h1
  exact Option.isSome_iff_exists.mp h2

theorem ServeHTTP_of_absent (serve : Mux H M → Request → R) (r : ChiRouter H M)
    (req : Request) (w : Mux H M) (hw : mapGet r.hosts "*".toList = some w)
    (hn : mapGet r.hosts (requestHost req) = none) :
    r.ServeHTTP serve req = some (serve w req) := by
  simp only [ChiRouter.ServeHTTP, hn, hw, Option.map]

theorem ServeHTTP_of_present (serve : Mux H M → Request → R) (r : ChiRouter H M)
    (req : Request) (t : Mux H M) (ht : mapGet r.hosts (requestHost req) = some t) :
    r.ServeHTTP serve req = some (serve t req) := by
  simp only [ChiRouter.ServeHTTP, ht]

/-- C16 (as stated, refuted). After `GET("", "/a", h9)` on a fresh router, a request for
`/a` whose resolved host is empty is answered by the tree stored under the empty host
(handler 9), while the same request with resolved host `*` is answered by the tree of
`*` (not found, 404). -/
theorem registered_empty_host_is_served :
    ∃ r, runOps demoOptions demoServe demoRouter [.GET [] "/a".toList 9 []] = some r ∧
      requestHost (demoRequest []) = [] ∧
      requestHost (demoRequest "*".toList) = "*".toList ∧
      r.ServeHTTP demoServe (demoRequest []) = some 9 ∧
      r.ServeHTTP demoServe (demoRequest "*".toList) = some 404 :=
  ⟨_, rfl, by decide, by decide, by decide, by decide⟩

/-- C16 (amended). In every state reached from the constructor whose table has no entry
for the empty host, a request whose resolved host is empty and a request whose resolved
host is `*` are both answered by the tree stored under `*`. -/
theorem ServeHTTP_empty_host (D options : Options H) (serve : Mux H M → Request → R)
    (ops : List (Op H M)) (r : ChiRouter H M) (req req' : Request)
    (hr : runOps D serve (NewChiRouterWithOptions D options) ops = some r)
    (hno : mapGet r.hosts [] = none)
    (h1 : requestHost req = []) (h2 : requestHost req' = "*".toList) :
    ∃ w, mapGet r.hosts "*".toList = some w ∧
      r.ServeHTTP serve req = some (serve w req) ∧
      r.ServeHTTP serve req' = some (serve w req') := by
  obtain ⟨w, hw⟩ := reachable_has_wildcard D options serve ops r hr
  refine ⟨w, hw, ServeHTTP_of_absent serve r req w hw (by rw [h1]; exact hno),
    ServeHTTP_of_present serve r req' w (by rw [h2]; exact hw)⟩

theorem ServeHTTP_empty_host_witness :
    ∃ w, mapGet ((demoRouter.GET demoOptions "a.example".toList "/a".toList 1 []).getD
          demoRouter).hosts "*".toList = some w ∧
      ((demoRouter.GET demoOptions "a.example".toList "/a".toList 1 []).getD
          demoRouter).ServeHTTP demoServe (demoRequest []) = some (demoServe w (demoRequest [])) ∧
      ((demoRouter.GET demoOptions "a.example".toList "/a".toList 1 []).getD
          demoRouter).ServeHTTP demoServe (demoRequest "*".toList)
        = some (demoServe w (demoRequest "*".toList)) :=
  ServeHTTP_empty_host demoOptions demoOptions demoServe
    [.GET "a.example".toList "/a".toList 1 []]
    ((demoRouter.GET demoOptions "a.example".toList "/a".toList 1 []).getD demoRouter)
    (demoRequest []) (demoRequest "*".toList) rfl rfl (by decide) (by decide)

theorem Handle_of_not_listed (D : Options H) (r : ChiRouter H M)
    (host method path : GoString) (handler : H) (handlers : List M)
    (h : method ∉ [MethodGet, MethodPost, MethodPut, MethodPatch, MethodDelete, MethodHead,
      MethodOptions]) :
    r.Handle D host method path handler handlers = some r := by
  simp only [List.mem_cons, List.mem_singleton, List.not_mem_nil, or_false, not_or] at h
  obtain ⟨h1, h2, h3, h4, h5, h6, h7⟩ := h
  unfold ChiRouter.Handle
  rw [if_neg h1, if_neg h2, if_neg h3, if_neg h4, if_neg h5, if_neg h6, if_neg h7]

theorem new_entry_origin (D : Options H) (serve : Mux H M → Request → R) (r r' : ChiRouter H M)
    (op : Op H M) (g : GoString) (ha : op.apply D serve r = some r')
    (hn : mapGet r.hosts g = none) (hs : (mapGet r'.hosts g).isSome = true) :
    op.host = some g ∧
      ∀ host method path handler handlers, op = .Handle host method path handler handlers →
        method ∈ [MethodGet, MethodPost, MethodPut, MethodPatch, MethodDelete, MethodHead,
          MethodOptions] := by
  have hne : r' ≠ r := by
    rintro rfl
    rw [hn] at hs
    cases hs
  constructor
  · cases hh : op.host with
    | some h =>
      obtain ⟨r'', h1, -, h3⟩ := apply_frame D serve r op h hh
      rw [ha] at h1
      cases h1
      by_cases hg : g = h
      · rw [hg]
      · rw [h3 g hg, hn] at hs
        cases hs
    | none =>
      exfalso
      cases op with
      | ServeHTTP req =>
        simp only [Op.apply] at ha
        cases hx : r.ServeHTTP serve req with
        | none => simp [hx] at ha
        | some x =>
          simp only [hx, Option.map, Option.some.injEq] at ha
          exact hne ha.symm
      | RoutesCount =>
        simp only [Op.apply] at ha
        cases hx : r.RoutesCount with
        | none => simp [hx] at ha
        | some x =>
          simp only [hx, Option.map, Option.some.injEq] at ha
          exact hne ha.symm
      | _ => simp [Op.host] at hh
  · rintro host method path handler handlers rfl
    by_contra hm
    rw [Op.apply, Handle_of_not_listed D r host method path handler handlers hm] at ha
    exact hne (Option.some.inj ha).symm

/-- C18. In every state reached from the constructor `ServeHTTP` returns and leaves the
router, with its host table, as it was, also for a request whose resolved host has no
entry; and whenever a call gives a host an entry it did not have, the call is a
registration with that host, and if it is `Handle`, its method is one the `switch`
lists. -/
theorem ServeHTTP_keeps_table (D options : Options H) (serve : Mux H M → Request → R)
    (ops : List (Op H M)) (r : ChiRouter H M) (req : Request)
    (hr : runOps D serve (NewChiRouterWithOptions D options) ops = some r) :
    (Op.ServeHTTP req).apply D serve r = some r ∧
    ∀ (op : Op H M) (r' : ChiRouter H M) (g : GoString), op.apply D serve r = some r' →
      mapGet r.hosts g = none → (mapGet r'.hosts g).isSome = true →
      op.host = some g ∧
        ∀ host method path handler handlers, op = .Handle host method path handler handlers →
          method ∈ [MethodGet, MethodPost, MethodPut, MethodPatch, MethodDelete, MethodHead,
            MethodOptions] := by
  obtain ⟨w, hw⟩ := reachable_has_wildcard D options serve ops r hr
  constructor
  · simp only [Op.apply, ChiRouter.ServeHTTP]
    cases mapGet r.hosts (requestHost req) <;> simp only [hw, Option.map]
  · exact fun op r' g ha hn hs => new_entry_origin D serve r r' op g ha hn hs

theorem ServeHTTP_keeps_table_witness :
    (Op.ServeHTTP (demoRequest "b.example".toList)).apply demoOptions demoServe demoRouter
      = some demoRouter ∧
    ∀ (op : Op Nat Nat) (r' : ChiRouter Nat Nat) (g : GoString),
      op.apply demoOptions demoServe demoRouter = some r' →
      mapGet demoRouter.hosts g = none → (mapGet r'.hosts g).isSome = true →
      op.host = some g ∧
        ∀ host method path handler handlers, op = .Handle host method path handler handlers →
          method ∈ [MethodGet, MethodPost, MethodPut, MethodPatch, MethodDelete, MethodHead,
            MethodOptions] :=
  ServeHTTP_keeps_table demoOptions demoOptions demoServe [] demoRouter
    (demoRequest "b.example".toList) rfl

end Proofs

end Janus
